import Mathlib

/-!
Verification development for the project-scaffolding tool `setup_project.py`.

The Python program builds a directory tree from a tabular template.  We give a
shallow embedding of its two classes:

* `Folder` (class `Folder`): a node of the tree.  Python's `__init__` validates
  the folder name; on violation it raises, catches the exception, prints a
  message and executes `return`, which in Python does NOT abort object
  construction -- the object exists but its `folder_name` attribute was never
  assigned.  We model the possibly-missing attribute as an `Option String`.
  Filesystem side effects (`os.mkdir`, README writing) are recorded in an
  event list rather than performed.

* `ProjectTemplate` (class `ProjectTemplate`): the tree builder.  Its state --
  the `_folder_tree` dict, the printed messages, the filesystem events, and a
  count of dict assignments hitting existing keys and of `KeyError`s raised in
  `_add_folder_to_tree` -- is the `BuildState` record.  Python dicts preserve
  insertion order, assignment to an existing key replaces in place, and `len`
  counts keys; `dictInsert`/`dictGet?` on an association list mirror that.
-/

/-- One row of the template dataframe `self._df` (columns `folder_name`,
`parent`, `readme_text`, `minimal`).  `readme_text` is `none` when the cell is
empty (the code only checks `is None`). -/
structure TRow where
  folder_name : String
  parent : String
  readme_text : Option String
  minimal : Bool
deriving DecidableEq, Repr, Inhabited

/-- A `Folder` object.  `root nm rd` is a folder whose `parent` attribute is
`None`; `child nm p rd` has `parent` attribute `p`.  The first field is the
`folder_name` attribute, `none` when name validation failed and the attribute
was never assigned. -/
inductive Folder : Type where
  | root (folder_name : Option String) (readme_text : Option String) : Folder
  | child (folder_name : Option String) (parent : Folder) (readme_text : Option String) : Folder
deriving DecidableEq, Repr

/-- Build a `Folder` from the attribute values, mirroring
`self.parent = parent; ...; self.folder_name = ...`. -/
def Folder.mkF (nm : Option String) (p : Option Folder) (rd : Option String) : Folder :=
  match p with
  | none => Folder.root nm rd
  | some q => Folder.child nm q rd

/-- The `reserved_chars` list of `Folder.__init__` (each Python entry is a
one-character string, so `c in folder_name` is character membership). -/
def reserved_chars : List Char := ['<', '>', ':', '\"', '/', '\\', '|', '?', '*']

/-- The `reserved_names` list of `Folder.__init__`:
`['CON','PRN','AUX'] + ['COM'+str(i) ...] + ['LPT'+str(i) ...]`. -/
def reserved_names : List String :=
  ["CON", "PRN", "AUX"]
    ++ (List.range' 1 9).map (fun i => "COM" ++ toString i)
    ++ (List.range' 1 9).map (fun i => "LPT" ++ toString i)

/-- `any([reserved_chars[i] in folder_name ...])`. -/
def hasReservedChar (name : String) : Bool :=
  reserved_chars.any (fun c => name.data.contains c)

/-- `any([reserved_names[i] in folder_name ...])`: substring match. -/
def hasReservedName (name : String) : Bool :=
  reserved_names.any (fun rn => decide (List.IsInfix rn.data name.data))

/-- The message printed by the `except` clause of `Folder.__init__` for an
exception with argument string `err`.  The handler compares `err.args` -- the
one-element tuple `(err,)` -- with the plain strings `'ReservedCharError'` and
`'ReservedNameError'`; in Python a tuple never equals a string, so both tests
fail and the final `else` branch prints the generic message. -/
def exceptHandlerMessage (err : String) : String :=
  "Other unexpected error occurred: " ++ err

/-- Result of running `Folder.__init__`: the constructed object, the printed
messages, and the folders on which `create_folder` ran (directory creation and
possible README write). -/
structure InitResult where
  folder : Folder
  messages : List String
  creations : List Folder
deriving DecidableEq, Repr

/-- `Folder.__init__(folder_name, parent, readme_text)`.  On a reserved
character or reserved name the handler prints and `return`s: `folder_name` is
never assigned and `create_folder` is not reached.  Otherwise the name is
stored (overwritten by `'.'` when `parent is None`) and `create_folder` runs
exactly when `parent is not None`. -/
def Folder.init (folder_name : String) (parent : Option Folder) (readme_text : Option String) :
    InitResult :=
  if hasReservedChar folder_name then
    ⟨Folder.mkF none parent readme_text, [exceptHandlerMessage "ReservedCharError"], []⟩
  else if hasReservedName folder_name then
    ⟨Folder.mkF none parent readme_text, [exceptHandlerMessage "ReservedNameError"], []⟩
  else
    let f := Folder.mkF (some (if parent.isNone then "." else folder_name)) parent readme_text
    ⟨f, [], match parent with | none => [] | some _ => [f]⟩

/-- The list built by the `while` loop of the `folder_path` property before
`path.reverse()`: this folder's name attribute, then each ancestor's, walking
`parent` references up to the root. -/
def Folder.nameList : Folder → List (Option String)
  | Folder.root nm _ => [nm]
  | Folder.child nm p _ => nm :: p.nameList

/-- `'/'.join(path)` on a list of strings. -/
def joinPath : List String → String
  | [] => ""
  | [x] => x
  | x :: y :: xs => x ++ "/" ++ joinPath (y :: xs)

/-- The `folder_path` property.  Accessing a missing `folder_name` attribute
would raise `AttributeError`; that failure is `none`. -/
def Folder.folder_path (f : Folder) : Option String :=
  if f.nameList.all (fun o => o.isSome) then
    some (joinPath ((f.nameList.reverse).map (fun o => o.getD "")))
  else none

/-- The root node `Folder('root', None, None)` created by
`ProjectTemplate.__init__`: name forced to `'.'`, no directory created. -/
def rootFolder : Folder := (Folder.init "root" none none).folder

/-- `self._folder_tree[k]` guarded by `try ... except KeyError`: the value at
the first (and, keys being unique in a dict, only) matching key. -/
def dictGet? : List (String × Folder) → String → Option Folder
  | [], _ => none
  | p :: tl, k => if p.1 = k then some p.2 else dictGet? tl k

/-- `self._folder_tree[k] = v`: replace in place when the key exists (Python
dicts keep the original position), else append at the end. -/
def dictInsert : List (String × Folder) → String → Folder → List (String × Folder)
  | [], k, v => [(k, v)]
  | p :: tl, k, v => if p.1 = k then (k, v) :: tl else p :: dictInsert tl k v

/-- The keys of the registry, in insertion order. -/
def dictKeys (d : List (String × Folder)) : List String := d.map (fun p => p.1)

/-- Mutable state of a `ProjectTemplate` run: the `_folder_tree` dict, the
messages printed so far, the folders for which `create_folder` ran, the number
of dict assignments whose key already existed, and the number of `KeyError`s
raised by the parent lookup inside `_add_folder_to_tree`. -/
structure BuildState where
  folder_tree : List (String × Folder)
  msgs : List String
  creations : List Folder
  addsToExisting : Nat
  keyErrors : Nat
deriving DecidableEq, Repr

/-- Record a `print`. -/
def addMsg (st : BuildState) (m : String) : BuildState :=
  { st with msgs := st.msgs ++ [m] }

/-- State after `ProjectTemplate.__init__`: `{'root': Folder('root', None, None)}`. -/
def initState : BuildState :=
  { folder_tree := [("root", rootFolder)]
    msgs := []
    creations := []
    addsToExisting := 0
    keyErrors := 0 }

/-- `n_folders`: `len(self._folder_tree)`. -/
def n_folders (st : BuildState) : Nat := st.folder_tree.length

/-- `_add_folder_to_tree(df_index)` for the row `r`: constructs
`Folder(name, self._folder_tree[parent], readme)` and assigns it under `name`.
When the parent key is missing the dict lookup raises `KeyError` before any
assignment; we count that event and leave the dict unchanged (the caller in
`_check_parent_branch_exists` sits inside an `except` block whose `finally:
return in_dict_flag` swallows the propagating exception). -/
def addFolderToTree (r : TRow) (st : BuildState) : BuildState :=
  match dictGet? st.folder_tree r.parent with
  | none => { st with keyErrors := st.keyErrors + 1 }
  | some pf =>
    let res := Folder.init r.folder_name (some pf) r.readme_text
    { st with
      folder_tree := dictInsert st.folder_tree r.folder_name res.folder
      msgs := st.msgs ++ res.messages
      creations := st.creations ++ res.creations
      addsToExisting :=
        st.addsToExisting + (if (dictGet? st.folder_tree r.folder_name).isSome then 1 else 0) }

/-- `self._df.at[i, ...]` row access (all uses are in bounds). -/
def dfAt (df : List TRow) (i : Nat) : TRow := df.getD i default

/-- Message of line 126: parent absent from the template. -/
def parentMissingMsg (p : String) : String :=
  "Parent folder " ++ p ++ " does not exist in the template file"

/-- Message of line 130: circular parent reference. -/
def circularMsg (p : String) : String :=
  "The parent of folder " ++ p ++ " refers to a child folder already explored"

/-- Message of lines 147-148 (two adjacent string literals, no space between). -/
def minimalMsg (p : String) : String :=
  "Minimal template required." ++ "Parent folder " ++ p
    ++ " is not included in the minimal project template."

/-- The candidacy test of lines 88 and 138:
`not minimal or (row.minimal and minimal)`. -/
def candidate (minimal : Bool) (r : TRow) : Bool :=
  !minimal || (r.minimal && minimal)

theorem countP_le_countP (l : List String) (p q : String → Bool)
    (himp : ∀ n, p n = true → q n = true) : l.countP p ≤ l.countP q := by
  induction l with
  | nil => simp
  | cons a tl ih =>
    rcases hpa : p a with _ | _
    · rcases hqa : q a with _ | _ <;> simp [List.countP_cons, hpa, hqa] <;> omega
    · simp [List.countP_cons, hpa, himp a hpa]; omega

theorem countP_lt_countP (l : List String) (p q : String → Bool)
    (himp : ∀ n, p n = true → q n = true) (x : String) (hx : x ∈ l)
    (hqx : q x = true) (hpx : p x = false) : l.countP p < l.countP q := by
  induction l with
  | nil => cases hx
  | cons a tl ih =>
    rcases List.mem_cons.mp hx with h | h
    · subst h
      have := countP_le_countP tl p q himp
      simp [List.countP_cons, hpx, hqx]
      omega
    · have := ih h
      rcases hpa : p a with _ | _
      · simp [List.countP_cons, hpa]; omega
      · simp [List.countP_cons, hpa, himp a hpa]; omega

/-- The number of template names not yet explored strictly drops when a fresh
name is added to `explored`; this bounds the recursion of
`_check_parent_branch_exists`. -/
theorem measure_decreases (names explored : List String) (p : String)
    (hp : p ∈ names) (hpe : p ∉ explored) :
    (names.filter (fun n => decide (n ∉ explored ++ [p]))).length <
      (names.filter (fun n => decide (n ∉ explored))).length := by
  rw [← List.countP_eq_length_filter, ← List.countP_eq_length_filter]
  refine countP_lt_countP names _ _ ?_ p hp (by simp [hpe]) (by simp)
  intro n hn
  simp only [decide_eq_true_eq] at hn ⊢
  intro hmem
  exact hn (List.mem_append_left _ hmem)

/-- `names = (self._df['folder_name']).to_list()`. -/
def dfNames (df : List TRow) : List String := df.map (fun r => r.folder_name)

/-- `index = names.index(parent)` followed by the row accesses
`self._df.at[index, ...]`: the first template row named `parent`. -/
def rowFor (df : List TRow) (parent : String) : TRow :=
  dfAt df ((dfNames df).indexOf parent)

/-- `_check_parent_branch_exists(minimal, parent, explored)`.  Returns the
`in_dict_flag` and the state after all side effects.  The `explored` list is
mutated by reference in Python, but after the recursive call returns the
caller never reads it again and every top-level call passes a fresh list, so
passing it downward captures the behaviour. -/
def check_parent_branch_exists (df : List TRow) (minimal : Bool) (parent : String)
    (explored : List String) (st : BuildState) : Bool × BuildState :=
  match dictGet? st.folder_tree parent with
  | some _ => (true, st)
  | none =>
    if h1 : parent ∉ dfNames df then
      (false, addMsg st (parentMissingMsg parent))
    else if h2 : parent ∈ explored then
      (false, addMsg st (circularMsg parent))
    else if candidate minimal (rowFor df parent) then
      match check_parent_branch_exists df minimal (rowFor df parent).parent
          (explored ++ [parent]) st with
      | (false, st') => (false, st')
      | (true, st') => (true, addFolderToTree (rowFor df parent) st')
    else
      (false, addMsg st (minimalMsg parent))
termination_by
  ((dfNames df).filter (fun n => decide (n ∉ explored))).length
decreasing_by
  exact measure_decreases _ explored parent (not_not.mp h1) h2

/-- The loop of `create_project_tree` over the remaining rows.  A failed check
sets `creation_success = False` and `break`s (nothing runs after the loop). -/
def buildLoop (df : List TRow) (minimal : Bool) : List TRow → BuildState → Bool × BuildState
  | [], st => (true, st)
  | r :: rest, st =>
    if candidate minimal r then
      match check_parent_branch_exists df minimal r.parent [r.folder_name] st with
      | (false, st') => (false, st')
      | (true, st') => buildLoop df minimal rest (addFolderToTree r st')
    else buildLoop df minimal rest st

/-- `create_project_tree(minimal)` on a freshly constructed builder. -/
def create_project_tree (df : List TRow) (minimal : Bool) : Bool × BuildState :=
  buildLoop df minimal df initState


/-!
Fuel-indexed twins of the recursive functions.  `check_parent_branch_exists`
is defined by well-founded recursion, which the kernel cannot evaluate and
whose induction principle is awkward; the twins recurse structurally on a fuel
counter, return `none` on fuel exhaustion, and are proved to agree with the
originals.  Concrete evaluations and inductive arguments go through them.
-/

def checkFuel (df : List TRow) : Nat → Bool → String → List String → BuildState →
    Option (Bool × BuildState)
  | 0, _, _, _, _ => none
  | fuel + 1, minimal, parent, explored, st =>
    match dictGet? st.folder_tree parent with
    | some _ => some (true, st)
    | none =>
      if parent ∉ dfNames df then
        some (false, addMsg st (parentMissingMsg parent))
      else if parent ∈ explored then
        some (false, addMsg st (circularMsg parent))
      else if candidate minimal (rowFor df parent) then
        match checkFuel df fuel minimal (rowFor df parent).parent (explored ++ [parent]) st with
        | none => none
        | some (false, st') => some (false, st')
        | some (true, st') => some (true, addFolderToTree (rowFor df parent) st')
      else
        some (false, addMsg st (minimalMsg parent))

def buildLoopFuel (df : List TRow) (minimal : Bool) (fuel : Nat) :
    List TRow → BuildState → Option (Bool × BuildState)
  | [], st => some (true, st)
  | r :: rest, st =>
    if candidate minimal r then
      match checkFuel df fuel minimal r.parent [r.folder_name] st with
      | none => none
      | some (false, st') => some (false, st')
      | some (true, st') => buildLoopFuel df minimal fuel rest (addFolderToTree r st')
    else buildLoopFuel df minimal fuel rest st

def createFuel (df : List TRow) (minimal : Bool) (fuel : Nat) : Option (Bool × BuildState) :=
  buildLoopFuel df minimal fuel df initState

theorem checkFuel_sound (df : List TRow) : ∀ (fuel : Nat) (minimal : Bool) (parent : String)
    (explored : List String) (st : BuildState) (res : Bool × BuildState),
    checkFuel df fuel minimal parent explored st = some res →
    check_parent_branch_exists df minimal parent explored st = res := by
  intro fuel
  induction fuel with
  | zero => intro _ _ _ _ _ h; simp [checkFuel] at h
  | succ f ih =>
    intro minimal parent explored st res h
    rw [checkFuel] at h
    rw [check_parent_branch_exists]
    cases hd : dictGet? st.folder_tree parent with
    | some pf =>
      rw [hd] at h
      simp only at h ⊢
      exact Option.some_inj.mp h
    | none =>
      rw [hd] at h
      simp only at h ⊢
      by_cases h1 : parent ∉ dfNames df
      · rw [if_pos h1] at h
        rw [dif_pos h1]
        exact Option.some_inj.mp h
      · rw [if_neg h1] at h
        rw [dif_neg h1]
        by_cases h2 : parent ∈ explored
        · rw [if_pos h2] at h
          rw [dif_pos h2]
          exact Option.some_inj.mp h
        · rw [if_neg h2] at h
          rw [dif_neg h2]
          by_cases hc : candidate minimal (rowFor df parent) = true
          · rw [if_pos hc] at h
            rw [if_pos hc]
            cases hrec : checkFuel df f minimal (rowFor df parent).parent
                (explored ++ [parent]) st with
            | none => rw [hrec] at h; simp at h
            | some p =>
              rw [hrec] at h
              rw [ih _ _ _ _ p hrec]
              cases p with
              | mk b st' =>
                cases b with
                | false => simp only at h ⊢; exact Option.some_inj.mp h
                | true => simp only at h ⊢; exact Option.some_inj.mp h
          · rw [if_neg hc] at h
            rw [if_neg hc]
            exact Option.some_inj.mp h

theorem checkFuel_total (df : List TRow) : ∀ (fuel : Nat) (minimal : Bool) (parent : String)
    (explored : List String) (st : BuildState),
    ((dfNames df).filter (fun n => decide (n ∉ explored))).length < fuel →
    (checkFuel df fuel minimal parent explored st).isSome := by
  intro fuel
  induction fuel with
  | zero => intro _ _ _ _ hlt; omega
  | succ f ih =>
    intro minimal parent explored st hlt
    rw [checkFuel]
    cases hd : dictGet? st.folder_tree parent with
    | some pf => simp
    | none =>
      simp only
      by_cases h1 : parent ∉ dfNames df
      · rw [if_pos h1]; simp
      · rw [if_neg h1]
        by_cases h2 : parent ∈ explored
        · rw [if_pos h2]; simp
        · rw [if_neg h2]
          by_cases hc : candidate minimal (rowFor df parent) = true
          · rw [if_pos hc]
            have hdec := measure_decreases (dfNames df) explored parent (not_not.mp h1) h2
            have htot := ih minimal (rowFor df parent).parent (explored ++ [parent]) st
              (by omega)
            cases hrec : checkFuel df f minimal (rowFor df parent).parent
                (explored ++ [parent]) st with
            | none => rw [hrec] at htot; simp at htot
            | some p =>
              cases p with
              | mk b st' => cases b with
                | false => simp
                | true => simp
          · rw [if_neg hc]; simp

/-- A uniformly sufficient fuel for every call made on behalf of `df`. -/
def enoughFuel (df : List TRow) : Nat := df.length + 1

theorem checkFuel_total' (df : List TRow) (minimal : Bool) (parent : String)
    (explored : List String) (st : BuildState) :
    (checkFuel df (enoughFuel df) minimal parent explored st).isSome := by
  apply checkFuel_total
  have h1 : ((dfNames df).filter (fun n => decide (n ∉ explored))).length ≤ (dfNames df).length :=
    List.length_filter_le _ _
  have h2 : (dfNames df).length = df.length := List.length_map _ _
  unfold enoughFuel
  omega

/-- Transfer principle: `check_parent_branch_exists` equals whatever the fuel
twin computes with sufficient fuel. -/
theorem check_eq_fuel (df : List TRow) (minimal : Bool) (parent : String)
    (explored : List String) (st : BuildState) :
    checkFuel df (enoughFuel df) minimal parent explored st =
      some (check_parent_branch_exists df minimal parent explored st) := by
  cases hr : checkFuel df (enoughFuel df) minimal parent explored st with
  | none =>
    have := checkFuel_total' df minimal parent explored st
    rw [hr] at this; simp at this
  | some res =>
    rw [checkFuel_sound df (enoughFuel df) minimal parent explored st res hr]

theorem buildLoopFuel_sound (df : List TRow) (minimal : Bool) (fuel : Nat) :
    ∀ (rest : List TRow) (st : BuildState) (res : Bool × BuildState),
    buildLoopFuel df minimal fuel rest st = some res →
    buildLoop df minimal rest st = res := by
  intro rest
  induction rest with
  | nil =>
    intro st res h
    simp only [buildLoopFuel, Option.some_inj] at h
    simp [buildLoop, h]
  | cons r rest' ih =>
    intro st res h
    rw [buildLoopFuel] at h
    rw [buildLoop]
    by_cases hc : candidate minimal r = true
    · rw [if_pos hc] at h
      rw [if_pos hc]
      cases hrec : checkFuel df fuel minimal r.parent [r.folder_name] st with
      | none => rw [hrec] at h; simp at h
      | some p =>
        rw [hrec] at h
        rw [checkFuel_sound df fuel minimal r.parent [r.folder_name] st p hrec]
        cases p with
        | mk b st' =>
          cases b with
          | false => simp only at h ⊢; exact Option.some_inj.mp h
          | true => simp only at h ⊢; exact ih _ res h
    · rw [if_neg hc] at h
      rw [if_neg hc]
      exact ih st res h

theorem buildLoopFuel_total (df : List TRow) (minimal : Bool) :
    ∀ (rest : List TRow) (st : BuildState),
    (buildLoopFuel df minimal (enoughFuel df) rest st).isSome := by
  intro rest
  induction rest with
  | nil => intro st; simp [buildLoopFuel]
  | cons r rest' ih =>
    intro st
    rw [buildLoopFuel]
    by_cases hc : candidate minimal r = true
    · rw [if_pos hc]
      cases hrec : checkFuel df (enoughFuel df) minimal r.parent [r.folder_name] st with
      | none =>
        have := checkFuel_total' df minimal r.parent [r.folder_name] st
        rw [hrec] at this; simp at this
      | some p =>
        cases p with
        | mk b st' =>
          cases b with
          | false => simp
          | true => simp only; exact ih _
    · rw [if_neg hc]; exact ih st

theorem create_eq_fuel (df : List TRow) (minimal : Bool) :
    createFuel df minimal (enoughFuel df) = some (create_project_tree df minimal) := by
  cases hr : createFuel df minimal (enoughFuel df) with
  | none =>
    have := buildLoopFuel_total df minimal df initState
    rw [createFuel] at hr
    rw [hr] at this; simp at this
  | some res =>
    rw [createFuel] at hr
    have := buildLoopFuel_sound df minimal (enoughFuel df) df initState res hr
    rw [create_project_tree, this]

/-- Evaluate `create_project_tree` through the fuel twin: if the twin computes
`some res` (checkable by `rfl`), the original equals `res`. -/
theorem create_eval (df : List TRow) (minimal : Bool) (fuel : Nat) (res : Bool × BuildState)
    (h : createFuel df minimal fuel = some res) : create_project_tree df minimal = res := by
  rw [createFuel] at h
  have := buildLoopFuel_sound df minimal fuel df initState res h
  rw [create_project_tree, this]

/-! Registry (Python dict) lemmas. -/

theorem dictGet?_eq_none_iff (d : List (String × Folder)) (k : String) :
    dictGet? d k = none ↔ k ∉ dictKeys d := by
  induction d with
  | nil => simp [dictGet?, dictKeys]
  | cons a tl ih =>
    rw [dictGet?]
    by_cases hk : a.1 = k
    · rw [if_pos hk]
      simp [dictKeys, ← hk]
    · rw [if_neg hk, ih]
      simp only [dictKeys, List.map_cons, List.mem_cons, not_or]
      constructor
      · intro h
        exact ⟨fun he => hk he.symm, h⟩
      · intro h
        exact h.2

theorem dictGet?_isSome_iff (d : List (String × Folder)) (k : String) :
    (dictGet? d k).isSome = true ↔ k ∈ dictKeys d := by
  rcases h : dictGet? d k with _ | v
  · rw [dictGet?_eq_none_iff] at h
    simp [h]
  · have : ¬(dictGet? d k = none) := by rw [h]; simp
    rw [dictGet?_eq_none_iff] at this
    simp [not_not.mp this]

theorem dictGet?_some_mem (d : List (String × Folder)) (k : String) (v : Folder)
    (h : dictGet? d k = some v) : k ∈ dictKeys d := by
  rw [← dictGet?_isSome_iff, h]
  rfl

theorem dictKeys_insert_mem (d : List (String × Folder)) (k : String) (v : Folder)
    (h : k ∈ dictKeys d) : dictKeys (dictInsert d k v) = dictKeys d := by
  induction d with
  | nil => simp [dictKeys] at h
  | cons a tl ih =>
    by_cases hk : a.1 = k
    · rw [dictInsert, if_pos hk]
      simp [dictKeys, hk]
    · rw [dictInsert, if_neg hk]
      have h' : k ∈ dictKeys tl := by
        rcases (by simpa [dictKeys] using h : k = a.1 ∨ k ∈ dictKeys tl) with h' | h'
        · exact absurd h'.symm hk
        · exact h'
      have htl := ih h'
      simp only [dictKeys, List.map_cons] at htl ⊢
      rw [htl]

theorem dictKeys_insert_not_mem (d : List (String × Folder)) (k : String) (v : Folder)
    (h : k ∉ dictKeys d) : dictKeys (dictInsert d k v) = dictKeys d ++ [k] := by
  induction d with
  | nil => simp [dictInsert, dictKeys]
  | cons a tl ih =>
    have hk : ¬(a.1 = k) := by
      intro hk
      exact h (by simp [dictKeys, hk])
    rw [dictInsert, if_neg hk]
    have h' : k ∉ dictKeys tl := by
      intro h'
      apply h
      simp only [dictKeys, List.map_cons, List.mem_cons]
      exact Or.inr (by simpa [dictKeys] using h')
    have htl := ih h'
    simp only [dictKeys, List.map_cons, List.cons_append] at htl ⊢
    rw [htl]

theorem mem_dictKeys_insert (d : List (String × Folder)) (k a : String) (v : Folder) :
    a ∈ dictKeys (dictInsert d k v) ↔ a ∈ dictKeys d ∨ a = k := by
  by_cases h : k ∈ dictKeys d
  · rw [dictKeys_insert_mem d k v h]
    constructor
    · exact Or.inl
    · rintro (h' | h')
      · exact h'
      · exact h' ▸ h
  · rw [dictKeys_insert_not_mem d k v h]
    simp

theorem length_dictInsert_mem (d : List (String × Folder)) (k : String) (v : Folder)
    (h : k ∈ dictKeys d) : (dictInsert d k v).length = d.length := by
  have hlen : (dictKeys (dictInsert d k v)).length = (dictKeys d).length := by
    rw [dictKeys_insert_mem d k v h]
  simpa [dictKeys] using hlen

theorem length_dictInsert_not_mem (d : List (String × Folder)) (k : String) (v : Folder)
    (h : k ∉ dictKeys d) : (dictInsert d k v).length = d.length + 1 := by
  have hlen : (dictKeys (dictInsert d k v)).length = (dictKeys d ++ [k]).length := by
    rw [dictKeys_insert_not_mem d k v h]
  simpa [dictKeys] using hlen

theorem dictGet?_insert_self (d : List (String × Folder)) (k : String) (v : Folder) :
    dictGet? (dictInsert d k v) k = some v := by
  induction d with
  | nil => simp [dictInsert, dictGet?]
  | cons a tl ih =>
    by_cases hk : a.1 = k
    · rw [dictInsert, if_pos hk, dictGet?, if_pos rfl]
    · rw [dictInsert, if_neg hk, dictGet?, if_neg hk]
      exact ih

theorem dictGet?_insert_ne (d : List (String × Folder)) (k a : String) (v : Folder)
    (h : a ≠ k) : dictGet? (dictInsert d k v) a = dictGet? d a := by
  induction d with
  | nil =>
    simp only [dictInsert, dictGet?]
    rw [if_neg (fun hh => h hh.symm)]
  | cons b tl ih =>
    by_cases hk : b.1 = k
    · rw [dictInsert, if_pos hk]
      simp only [dictGet?]
      rw [if_neg (fun hh => h hh.symm), if_neg (fun hh => h (hh.symm.trans hk))]
    · rw [dictInsert, if_neg hk]
      simp only [dictGet?]
      by_cases hba : b.1 = a
      · rw [if_pos hba, if_pos hba]
      · rw [if_neg hba, if_neg hba]
        exact ih

theorem dictKeys_nodup_insert (d : List (String × Folder)) (k : String) (v : Folder)
    (h : (dictKeys d).Nodup) : (dictKeys (dictInsert d k v)).Nodup := by
  by_cases hmem : k ∈ dictKeys d
  · rw [dictKeys_insert_mem d k v hmem]; exact h
  · rw [dictKeys_insert_not_mem d k v hmem]
    rw [List.nodup_append]
    refine ⟨h, List.nodup_singleton k, ?_⟩
    intro a hmem' hak
    rw [List.mem_singleton] at hak
    exact hmem (hak ▸ hmem')

/-! Facts about row lookup by name and about `_add_folder_to_tree`. -/

theorem dfAt_eq_getElem (df : List TRow) (i : Nat) (h : i < df.length) :
    dfAt df i = df[i] := by
  simp [dfAt, List.getD_eq_getElem?_getD, List.getElem?_eq_getElem h]

theorem rowFor_name (df : List TRow) (parent : String) (h : parent ∈ dfNames df) :
    (rowFor df parent).folder_name = parent := by
  have hlt : (dfNames df).indexOf parent < (dfNames df).length := List.indexOf_lt_length.mpr h
  have hlen : (dfNames df).length = df.length := List.length_map _ _
  rw [rowFor, dfAt_eq_getElem df _ (by omega)]
  have h2 := List.getElem_indexOf hlt
  simp only [dfNames, List.getElem_map] at h2
  exact h2

theorem rowFor_mem (df : List TRow) (parent : String) (h : parent ∈ dfNames df) :
    rowFor df parent ∈ df := by
  have hlt : (dfNames df).indexOf parent < (dfNames df).length := List.indexOf_lt_length.mpr h
  have hlen : (dfNames df).length = df.length := List.length_map _ _
  rw [rowFor, dfAt_eq_getElem df _ (by omega)]
  exact List.getElem_mem _

theorem row_name_inj (df : List TRow) (hnd : (dfNames df).Nodup) (r1 r2 : TRow)
    (h1 : r1 ∈ df) (h2 : r2 ∈ df) (he : r1.folder_name = r2.folder_name) : r1 = r2 :=
  List.inj_on_of_nodup_map (by simpa [dfNames] using hnd) h1 h2 he

/-- With unique template names, looking a name up finds exactly its row. -/
theorem rowFor_eq_of_nodup (df : List TRow) (hnd : (dfNames df).Nodup) (r : TRow)
    (hr : r ∈ df) : rowFor df r.folder_name = r := by
  have hmem : r.folder_name ∈ dfNames df := List.mem_map.mpr ⟨r, hr, rfl⟩
  exact row_name_inj df hnd _ r (rowFor_mem df _ hmem) hr (rowFor_name df _ hmem)

theorem addMsg_tree (st : BuildState) (m : String) :
    (addMsg st m).folder_tree = st.folder_tree := rfl

theorem addFolder_tree_cases (r : TRow) (st : BuildState) :
    (addFolderToTree r st).folder_tree = st.folder_tree ∨
    ∃ pf, dictGet? st.folder_tree r.parent = some pf ∧
      (addFolderToTree r st).folder_tree =
        dictInsert st.folder_tree r.folder_name
          (Folder.init r.folder_name (some pf) r.readme_text).folder := by
  simp only [addFolderToTree]
  cases hd : dictGet? st.folder_tree r.parent with
  | none => exact Or.inl rfl
  | some pf => exact Or.inr ⟨pf, rfl, rfl⟩

theorem addFolder_keys_mono (r : TRow) (st : BuildState) (k : String)
    (h : k ∈ dictKeys st.folder_tree) : k ∈ dictKeys (addFolderToTree r st).folder_tree := by
  rcases addFolder_tree_cases r st with h' | ⟨pf, _, h'⟩
  · rw [h']; exact h
  · rw [h', mem_dictKeys_insert]; exact Or.inl h

theorem addFolder_keys_sub (r : TRow) (st : BuildState) (k : String)
    (h : k ∈ dictKeys (addFolderToTree r st).folder_tree) :
    k ∈ dictKeys st.folder_tree ∨ k = r.folder_name := by
  rcases addFolder_tree_cases r st with h' | ⟨pf, _, h'⟩
  · rw [h'] at h; exact Or.inl h
  · rw [h', mem_dictKeys_insert] at h; exact h

theorem addFolder_self_mem (r : TRow) (st : BuildState)
    (h : r.parent ∈ dictKeys st.folder_tree) :
    r.folder_name ∈ dictKeys (addFolderToTree r st).folder_tree := by
  rcases hd : dictGet? st.folder_tree r.parent with _ | pf
  · rw [dictGet?_eq_none_iff] at hd
    exact absurd h hd
  · have htree : (addFolderToTree r st).folder_tree =
        dictInsert st.folder_tree r.folder_name
          (Folder.init r.folder_name (some pf) r.readme_text).folder := by
      simp only [addFolderToTree]
      rw [hd]
    rw [htree, mem_dictKeys_insert]
    exact Or.inr rfl

theorem addFolder_keyErrors_of_mem (r : TRow) (st : BuildState)
    (h : r.parent ∈ dictKeys st.folder_tree) :
    (addFolderToTree r st).keyErrors = st.keyErrors := by
  rcases hd : dictGet? st.folder_tree r.parent with _ | pf
  · rw [dictGet?_eq_none_iff] at hd
    exact absurd h hd
  · simp only [addFolderToTree]
    rw [hd]

/-! Inductive facts about the resolver. -/

theorem checkFuel_keys_mono (df : List TRow) : ∀ (fuel : Nat) (minimal : Bool) (parent : String)
    (explored : List String) (st : BuildState) (res : Bool × BuildState) (k : String),
    checkFuel df fuel minimal parent explored st = some res →
    k ∈ dictKeys st.folder_tree → k ∈ dictKeys res.2.folder_tree := by
  intro fuel
  induction fuel with
  | zero => intro _ _ _ _ _ _ h; simp [checkFuel] at h
  | succ f ih =>
    intro minimal parent explored st res k h hk
    rw [checkFuel] at h
    cases hd : dictGet? st.folder_tree parent with
    | some pf =>
      rw [hd] at h
      simp only [Option.some_inj] at h
      rw [← h]
      exact hk
    | none =>
      rw [hd] at h
      simp only at h
      by_cases h1 : parent ∉ dfNames df
      · rw [if_pos h1] at h
        simp only [Option.some_inj] at h
        rw [← h]
        exact hk
      · rw [if_neg h1] at h
        by_cases h2 : parent ∈ explored
        · rw [if_pos h2] at h
          simp only [Option.some_inj] at h
          rw [← h]
          exact hk
        · rw [if_neg h2] at h
          by_cases hc : candidate minimal (rowFor df parent) = true
          · rw [if_pos hc] at h
            cases hrec : checkFuel df f minimal (rowFor df parent).parent
                (explored ++ [parent]) st with
            | none => rw [hrec] at h; simp at h
            | some p =>
              rw [hrec] at h
              cases p with
              | mk b st' =>
                cases b with
                | false =>
                  simp only [Option.some_inj] at h
                  rw [← h]
                  exact ih _ _ _ _ _ k hrec hk
                | true =>
                  simp only [Option.some_inj] at h
                  rw [← h]
                  exact addFolder_keys_mono _ _ k (ih _ _ _ _ _ k hrec hk)
          · rw [if_neg hc] at h
            simp only [Option.some_inj] at h
            rw [← h]
            exact hk

theorem checkFuel_true_mem (df : List TRow) : ∀ (fuel : Nat) (minimal : Bool) (parent : String)
    (explored : List String) (st st' : BuildState),
    checkFuel df fuel minimal parent explored st = some (true, st') →
    parent ∈ dictKeys st'.folder_tree := by
  intro fuel
  induction fuel with
  | zero => intro _ _ _ _ _ h; simp [checkFuel] at h
  | succ f ih =>
    intro minimal parent explored st st' h
    rw [checkFuel] at h
    cases hd : dictGet? st.folder_tree parent with
    | some pf =>
      rw [hd] at h
      simp only [Option.some_inj, Prod.mk.injEq, true_and] at h
      rw [← h]
      exact dictGet?_some_mem _ _ _ hd
    | none =>
      rw [hd] at h
      simp only at h
      by_cases h1 : parent ∉ dfNames df
      · rw [if_pos h1] at h
        simp at h
      · rw [if_neg h1] at h
        by_cases h2 : parent ∈ explored
        · rw [if_pos h2] at h
          simp at h
        · rw [if_neg h2] at h
          by_cases hc : candidate minimal (rowFor df parent) = true
          · rw [if_pos hc] at h
            cases hrec : checkFuel df f minimal (rowFor df parent).parent
                (explored ++ [parent]) st with
            | none => rw [hrec] at h; simp at h
            | some p =>
              rw [hrec] at h
              cases p with
              | mk b st1 =>
                cases b with
                | false => simp at h
                | true =>
                  simp only [Option.some_inj, Prod.mk.injEq, true_and] at h
                  rw [← h]
                  have hpar : (rowFor df parent).parent ∈ dictKeys st1.folder_tree :=
                    ih _ _ _ _ _ hrec
                  have := addFolder_self_mem (rowFor df parent) st1 hpar
                  rwa [rowFor_name df parent (not_not.mp h1)] at this
          · rw [if_neg hc] at h
            simp at h

/-- Any property of the registry preserved by the (guarded) row additions is
preserved by the whole resolution. -/
theorem checkFuel_pres (df : List TRow) (P : List (String × Folder) → Prop)
    (minimal : Bool)
    (hadd : ∀ r ∈ df, candidate minimal r = true → ∀ st : BuildState,
      P st.folder_tree → P (addFolderToTree r st).folder_tree) :
    ∀ (fuel : Nat) (parent : String) (explored : List String) (st : BuildState)
    (res : Bool × BuildState),
    checkFuel df fuel minimal parent explored st = some res →
    P st.folder_tree → P res.2.folder_tree := by
  intro fuel
  induction fuel with
  | zero => intro _ _ _ _ h; simp [checkFuel] at h
  | succ f ih =>
    intro parent explored st res h hP
    rw [checkFuel] at h
    cases hd : dictGet? st.folder_tree parent with
    | some pf =>
      rw [hd] at h
      simp only [Option.some_inj] at h
      rw [← h]
      exact hP
    | none =>
      rw [hd] at h
      simp only at h
      by_cases h1 : parent ∉ dfNames df
      · rw [if_pos h1] at h
        simp only [Option.some_inj] at h
        rw [← h]
        exact hP
      · rw [if_neg h1] at h
        by_cases h2 : parent ∈ explored
        · rw [if_pos h2] at h
          simp only [Option.some_inj] at h
          rw [← h]
          exact hP
        · rw [if_neg h2] at h
          by_cases hc : candidate minimal (rowFor df parent) = true
          · rw [if_pos hc] at h
            cases hrec : checkFuel df f minimal (rowFor df parent).parent
                (explored ++ [parent]) st with
            | none => rw [hrec] at h; simp at h
            | some p =>
              rw [hrec] at h
              cases p with
              | mk b st1 =>
                cases b with
                | false =>
                  simp only [Option.some_inj] at h
                  rw [← h]
                  exact ih _ _ _ _ hrec hP
                | true =>
                  simp only [Option.some_inj] at h
                  rw [← h]
                  exact hadd (rowFor df parent) (rowFor_mem df parent (not_not.mp h1)) hc
                    st1 (ih _ _ _ _ hrec hP)
          · rw [if_neg hc] at h
            simp only [Option.some_inj] at h
            rw [← h]
            exact hP

theorem checkFuel_keyErrors (df : List TRow) : ∀ (fuel : Nat) (minimal : Bool) (parent : String)
    (explored : List String) (st : BuildState) (res : Bool × BuildState),
    checkFuel df fuel minimal parent explored st = some res →
    res.2.keyErrors = st.keyErrors := by
  intro fuel
  induction fuel with
  | zero => intro _ _ _ _ _ h; simp [checkFuel] at h
  | succ f ih =>
    intro minimal parent explored st res h
    rw [checkFuel] at h
    cases hd : dictGet? st.folder_tree parent with
    | some pf =>
      rw [hd] at h
      simp only [Option.some_inj] at h
      rw [← h]
    | none =>
      rw [hd] at h
      simp only at h
      by_cases h1 : parent ∉ dfNames df
      · rw [if_pos h1] at h
        simp only [Option.some_inj] at h
        rw [← h]
        rfl
      · rw [if_neg h1] at h
        by_cases h2 : parent ∈ explored
        · rw [if_pos h2] at h
          simp only [Option.some_inj] at h
          rw [← h]
          rfl
        · rw [if_neg h2] at h
          by_cases hc : candidate minimal (rowFor df parent) = true
          · rw [if_pos hc] at h
            cases hrec : checkFuel df f minimal (rowFor df parent).parent
                (explored ++ [parent]) st with
            | none => rw [hrec] at h; simp at h
            | some p =>
              rw [hrec] at h
              cases p with
              | mk b st1 =>
                cases b with
                | false =>
                  simp only [Option.some_inj] at h
                  rw [← h]
                  exact ih _ _ _ _ _ hrec
                | true =>
                  simp only [Option.some_inj] at h
                  rw [← h]
                  have hpar : (rowFor df parent).parent ∈ dictKeys st1.folder_tree :=
                    checkFuel_true_mem df f _ _ _ _ _ hrec
                  rw [addFolder_keyErrors_of_mem _ _ hpar]
                  exact ih _ _ _ _ _ hrec
          · rw [if_neg hc] at h
            simp only [Option.some_inj] at h
            rw [← h]
            rfl

/-! The same facts transferred to `check_parent_branch_exists`. -/

theorem check_keys_mono (df : List TRow) (minimal : Bool) (parent : String)
    (explored : List String) (st : BuildState) (k : String)
    (hk : k ∈ dictKeys st.folder_tree) :
    k ∈ dictKeys (check_parent_branch_exists df minimal parent explored st).2.folder_tree :=
  checkFuel_keys_mono df (enoughFuel df) minimal parent explored st _ k
    (check_eq_fuel df minimal parent explored st) hk

theorem check_true_mem (df : List TRow) (minimal : Bool) (parent : String)
    (explored : List String) (st st' : BuildState)
    (h : check_parent_branch_exists df minimal parent explored st = (true, st')) :
    parent ∈ dictKeys st'.folder_tree := by
  apply checkFuel_true_mem df (enoughFuel df) minimal parent explored st st'
  rw [check_eq_fuel df minimal parent explored st, h]

theorem check_pres (df : List TRow) (P : List (String × Folder) → Prop) (minimal : Bool)
    (hadd : ∀ r ∈ df, candidate minimal r = true → ∀ st : BuildState,
      P st.folder_tree → P (addFolderToTree r st).folder_tree)
    (parent : String) (explored : List String) (st : BuildState)
    (hP : P st.folder_tree) :
    P (check_parent_branch_exists df minimal parent explored st).2.folder_tree :=
  checkFuel_pres df P minimal hadd (enoughFuel df) parent explored st _
    (check_eq_fuel df minimal parent explored st) hP

theorem check_keyErrors (df : List TRow) (minimal : Bool) (parent : String)
    (explored : List String) (st : BuildState) :
    (check_parent_branch_exists df minimal parent explored st).2.keyErrors = st.keyErrors :=
  checkFuel_keyErrors df (enoughFuel df) minimal parent explored st _
    (check_eq_fuel df minimal parent explored st)

/-! Facts about the `create_project_tree` loop. -/

theorem buildLoop_keys_mono (df : List TRow) (minimal : Bool) :
    ∀ (rest : List TRow) (st : BuildState) (k : String),
    k ∈ dictKeys st.folder_tree →
    k ∈ dictKeys (buildLoop df minimal rest st).2.folder_tree := by
  intro rest
  induction rest with
  | nil => intro st k hk; rw [buildLoop]; exact hk
  | cons r rest' ih =>
    intro st k hk
    rw [buildLoop]
    by_cases hc : candidate minimal r = true
    · rw [if_pos hc]
      cases hck : check_parent_branch_exists df minimal r.parent [r.folder_name] st with
      | mk b st' =>
        have hk' : k ∈ dictKeys st'.folder_tree := by
          have := check_keys_mono df minimal r.parent [r.folder_name] st k hk
          rwa [hck] at this
        cases b with
        | false => exact hk'
        | true => exact ih _ k (addFolder_keys_mono r st' k hk')
    · rw [if_neg hc]
      exact ih st k hk

theorem buildLoop_pres (df : List TRow) (P : List (String × Folder) → Prop) (minimal : Bool)
    (hadd : ∀ r ∈ df, candidate minimal r = true → ∀ st : BuildState,
      P st.folder_tree → P (addFolderToTree r st).folder_tree) :
    ∀ (rest : List TRow), rest ⊆ df → ∀ (st : BuildState),
    P st.folder_tree → P (buildLoop df minimal rest st).2.folder_tree := by
  intro rest
  induction rest with
  | nil => intro _ st hP; rw [buildLoop]; exact hP
  | cons r rest' ih =>
    intro hsub st hP
    have hrdf : r ∈ df := hsub (List.mem_cons_self r rest')
    have hsub' : rest' ⊆ df := fun x hx => hsub (List.mem_cons_of_mem r hx)
    rw [buildLoop]
    by_cases hc : candidate minimal r = true
    · rw [if_pos hc]
      cases hck : check_parent_branch_exists df minimal r.parent [r.folder_name] st with
      | mk b st' =>
        have hP' : P st'.folder_tree := by
          have := check_pres df P minimal hadd r.parent [r.folder_name] st hP
          rwa [hck] at this
        cases b with
        | false => exact hP'
        | true => exact ih hsub' _ (hadd r hrdf hc _ hP')
    · rw [if_neg hc]
      exact ih hsub' st hP

theorem buildLoop_keyErrors (df : List TRow) (minimal : Bool) :
    ∀ (rest : List TRow) (st : BuildState),
    (buildLoop df minimal rest st).2.keyErrors = st.keyErrors := by
  intro rest
  induction rest with
  | nil => intro st; rw [buildLoop]
  | cons r rest' ih =>
    intro st
    rw [buildLoop]
    by_cases hc : candidate minimal r = true
    · rw [if_pos hc]
      cases hck : check_parent_branch_exists df minimal r.parent [r.folder_name] st with
      | mk b st' =>
        have hke : st'.keyErrors = st.keyErrors := by
          have := check_keyErrors df minimal r.parent [r.folder_name] st
          rwa [hck] at this
        cases b with
        | false => exact hke
        | true =>
          rw [ih _]
          have hpar : r.parent ∈ dictKeys st'.folder_tree :=
            check_true_mem df minimal r.parent [r.folder_name] st st' hck
          rw [addFolder_keyErrors_of_mem r st' hpar]
          exact hke
    · rw [if_neg hc]
      exact ih st

/-- After a loop that returns `True`, every candidate row it processed is a
key of the final registry. -/
theorem buildLoop_true_registered (df : List TRow) (minimal : Bool) :
    ∀ (rest : List TRow) (st stF : BuildState),
    buildLoop df minimal rest st = (true, stF) →
    ∀ r ∈ rest, candidate minimal r = true → r.folder_name ∈ dictKeys stF.folder_tree := by
  intro rest
  induction rest with
  | nil => intro st stF h r hr; cases hr
  | cons r0 rest' ih =>
    intro st stF h r hr hc
    rw [buildLoop] at h
    by_cases hc0 : candidate minimal r0 = true
    · rw [if_pos hc0] at h
      cases hck : check_parent_branch_exists df minimal r0.parent [r0.folder_name] st with
      | mk b st' =>
        rw [hck] at h
        cases b with
        | false => simp at h
        | true =>
          simp only at h
          rcases List.mem_cons.mp hr with hr0 | hr'
          · subst hr0
            have hpar : r.parent ∈ dictKeys st'.folder_tree :=
              check_true_mem df minimal r.parent [r.folder_name] st st' hck
            have hself := addFolder_self_mem r st' hpar
            have := buildLoop_keys_mono df minimal rest' (addFolderToTree r st')
              r.folder_name hself
            rwa [h] at this
          · exact ih _ _ h r hr' hc
    · rw [if_neg hc0] at h
      rcases List.mem_cons.mp hr with hr0 | hr'
      · subst hr0
        rw [hc] at hc0
        exact absurd rfl hc0
      · exact ih _ _ h r hr' hc

/-! Success of the resolution under acyclicity, parent-definedness and
all-candidate hypotheses. -/

/-- Under a depth function witnessing acyclicity, no template row may be
named `root`: following parents from it would descend forever. -/
theorem root_not_mem_names (df : List TRow) (depth : String → Nat)
    (hPD : ∀ r ∈ df, r.parent = "root" ∨ r.parent ∈ dfNames df)
    (hdep : ∀ r ∈ df, depth r.parent < depth r.folder_name) :
    "root" ∉ dfNames df := by
  have key : ∀ k, ∀ n, n ∈ dfNames df → depth n ≤ k → depth "root" < depth n := by
    intro k
    induction k with
    | zero =>
      intro n hn hle
      rcases List.mem_map.mp hn with ⟨r, hr, hfn⟩
      have hlt := hdep r hr
      rw [hfn] at hlt
      omega
    | succ k ih =>
      intro n hn hle
      rcases List.mem_map.mp hn with ⟨r, hr, hfn⟩
      have hlt := hdep r hr
      rw [hfn] at hlt
      rcases hPD r hr with hroot | hmem
      · rw [← hroot]
        exact hlt
      · have h1 := ih r.parent hmem (by omega)
        omega
  intro hroot
  have := key (depth "root") "root" hroot le_rfl
  omega

theorem checkFuel_success (df : List TRow) (minimal : Bool) (depth : String → Nat)
    (hPD : ∀ r ∈ df, r.parent = "root" ∨ r.parent ∈ dfNames df)
    (hdep : ∀ r ∈ df, depth r.parent < depth r.folder_name)
    (hcand : ∀ r ∈ df, candidate minimal r = true) :
    ∀ (fuel : Nat) (p : String) (explored : List String) (st : BuildState),
    ((dfNames df).filter (fun n => decide (n ∉ explored))).length < fuel →
    "root" ∈ dictKeys st.folder_tree →
    (p = "root" ∨ p ∈ dfNames df) →
    (∀ x ∈ explored, depth p < depth x) →
    ∃ st', checkFuel df fuel minimal p explored st = some (true, st') := by
  intro fuel
  induction fuel with
  | zero => intro _ _ _ hlt; omega
  | succ f ih =>
    intro p explored st hlt hroot hp hexp
    cases hd : dictGet? st.folder_tree p with
    | some pf =>
      refine ⟨st, ?_⟩
      rw [checkFuel, hd]
    | none =>
      have hpn : p ∈ dfNames df := by
        rcases hp with hp | hp
        · exfalso
          rw [dictGet?_eq_none_iff] at hd
          rw [hp] at hd
          exact hd hroot
        · exact hp
      have hpe : p ∉ explored := fun hin => lt_irrefl _ (hexp p hin)
      have hc : candidate minimal (rowFor df p) = true :=
        hcand _ (rowFor_mem df p hpn)
      have hname : (rowFor df p).folder_name = p := rowFor_name df p hpn
      have hrm : rowFor df p ∈ df := rowFor_mem df p hpn
      have hdec := measure_decreases (dfNames df) explored p hpn hpe
      have hlt' : ((dfNames df).filter (fun n => decide (n ∉ explored ++ [p]))).length < f := by
        omega
      have hp' : (rowFor df p).parent = "root" ∨ (rowFor df p).parent ∈ dfNames df :=
        hPD _ hrm
      have hexp' : ∀ x ∈ explored ++ [p], depth (rowFor df p).parent < depth x := by
        intro x hx
        have hltp : depth (rowFor df p).parent < depth p := by
          have := hdep _ hrm
          rwa [hname] at this
        rcases List.mem_append.mp hx with hx | hx
        · exact lt_trans hltp (hexp x hx)
        · rw [List.mem_singleton] at hx
          rw [hx]
          exact hltp
      rcases ih (rowFor df p).parent (explored ++ [p]) st hlt' hroot hp' hexp' with ⟨st1, hrec⟩
      refine ⟨addFolderToTree (rowFor df p) st1, ?_⟩
      rw [checkFuel, hd]
      simp only
      rw [if_neg (not_not_intro hpn), if_neg hpe, if_pos hc, hrec]

theorem check_success (df : List TRow) (minimal : Bool) (depth : String → Nat)
    (hPD : ∀ r ∈ df, r.parent = "root" ∨ r.parent ∈ dfNames df)
    (hdep : ∀ r ∈ df, depth r.parent < depth r.folder_name)
    (hcand : ∀ r ∈ df, candidate minimal r = true)
    (p : String) (explored : List String) (st : BuildState)
    (hroot : "root" ∈ dictKeys st.folder_tree)
    (hp : p = "root" ∨ p ∈ dfNames df)
    (hexp : ∀ x ∈ explored, depth p < depth x) :
    (check_parent_branch_exists df minimal p explored st).1 = true := by
  have hlt : ((dfNames df).filter (fun n => decide (n ∉ explored))).length < enoughFuel df := by
    have h1 : ((dfNames df).filter (fun n => decide (n ∉ explored))).length ≤ (dfNames df).length :=
      List.length_filter_le _ _
    have h2 : (dfNames df).length = df.length := List.length_map _ _
    unfold enoughFuel
    omega
  rcases checkFuel_success df minimal depth hPD hdep hcand (enoughFuel df) p explored st
    hlt hroot hp hexp with ⟨st', hck⟩
  rw [checkFuel_sound df (enoughFuel df) minimal p explored st (true, st') hck]

theorem buildLoop_success (df : List TRow) (minimal : Bool) (depth : String → Nat)
    (hPD : ∀ r ∈ df, r.parent = "root" ∨ r.parent ∈ dfNames df)
    (hdep : ∀ r ∈ df, depth r.parent < depth r.folder_name)
    (hcand : ∀ r ∈ df, candidate minimal r = true) :
    ∀ (rest : List TRow), rest ⊆ df → ∀ (st : BuildState),
    "root" ∈ dictKeys st.folder_tree →
    (buildLoop df minimal rest st).1 = true := by
  intro rest
  induction rest with
  | nil => intro _ st _; rw [buildLoop]
  | cons r rest' ih =>
    intro hsub st hroot
    have hrdf : r ∈ df := hsub (List.mem_cons_self r rest')
    have hsub' : rest' ⊆ df := fun x hx => hsub (List.mem_cons_of_mem r hx)
    rw [buildLoop]
    rw [if_pos (hcand r hrdf)]
    cases hck : check_parent_branch_exists df minimal r.parent [r.folder_name] st with
    | mk b st' =>
      have hb : b = true := by
        have := check_success df minimal depth hPD hdep hcand r.parent [r.folder_name] st
          hroot (hPD r hrdf)
          (by
            intro x hx
            rw [List.mem_singleton] at hx
            rw [hx]
            exact hdep r hrdf)
        rwa [hck] at this
      subst hb
      simp only
      apply ih hsub'
      apply addFolder_keys_mono
      have := check_keys_mono df minimal r.parent [r.folder_name] st "root" hroot
      rwa [hck] at this

theorem root_mem_init : "root" ∈ dictKeys initState.folder_tree := by
  simp [initState, dictKeys]

/-- C9: whenever `_check_parent_branch_exists` returns `True` for a parent
name, that name is a key of `_folder_tree`, so the lookup
`self._folder_tree[...parent...]` inside `_add_folder_to_tree` cannot raise
`KeyError`; consequently no run of `create_project_tree` ever records a
`KeyError` from that lookup. -/
theorem c9_check_true_implies_registered :
    (∀ (df : List TRow) (minimal : Bool) (parent : String) (explored : List String)
      (st st' : BuildState),
      check_parent_branch_exists df minimal parent explored st = (true, st') →
      parent ∈ dictKeys st'.folder_tree ∧ dictGet? st'.folder_tree parent ≠ none) ∧
    (∀ (df : List TRow) (minimal : Bool),
      (create_project_tree df minimal).2.keyErrors = 0) := by
  constructor
  · intro df minimal parent explored st st' h
    have hmem := check_true_mem df minimal parent explored st st' h
    refine ⟨hmem, ?_⟩
    rw [Ne, dictGet?_eq_none_iff]
    exact fun hcontra => hcontra hmem
  · intro df minimal
    rw [create_project_tree, buildLoop_keyErrors]
    rfl

theorem c9_witness :
    "root" ∈ dictKeys initState.folder_tree ∧ dictGet? initState.folder_tree "root" ≠ none :=
  c9_check_true_implies_registered.1 [] false "root" [] initState initState
    (checkFuel_sound [] (enoughFuel []) false "root" [] initState (true, initState) rfl)

/-- C1: for a record set with no cycles (witnessed by a depth function on
names), all referenced parents defined as some row's `folder_name` or the
root, and distinct valid folder names, `create_project_tree(minimal=False)`
on a fresh builder returns `True` and afterwards `n_folders` equals the
number of template records plus one for the root entry. -/
theorem c1_acyclic_build_true_and_count (df : List TRow) (depth : String → Nat)
    (hnd : (dfNames df).Nodup)
    (hvalid : ∀ r ∈ df, hasReservedChar r.folder_name = false ∧
      hasReservedName r.folder_name = false)
    (hPD : ∀ r ∈ df, r.parent = "root" ∨ r.parent ∈ dfNames df)
    (hdep : ∀ r ∈ df, depth r.parent < depth r.folder_name) :
    (create_project_tree df false).1 = true ∧
    n_folders (create_project_tree df false).2 = df.length + 1 := by
  have hcand : ∀ r ∈ df, candidate false r = true := fun r _ => by simp [candidate]
  have hsucc : (create_project_tree df false).1 = true := by
    rw [create_project_tree]
    exact buildLoop_success df false depth hPD hdep hcand df (fun x hx => hx) initState
      root_mem_init
  refine ⟨hsucc, ?_⟩
  cases hres : buildLoop df false df initState with
  | mk b stF =>
    have hb : b = true := by
      rw [create_project_tree, hres] at hsucc
      exact hsucc
    subst hb
    have hcreate2 : (create_project_tree df false).2 = stF := by rw [create_project_tree, hres]
    rw [hcreate2]
    have hroot_mem : "root" ∈ dictKeys stF.folder_tree := by
      have := buildLoop_keys_mono df false df initState "root" root_mem_init
      rwa [hres] at this
    have hreg : ∀ r ∈ df, r.folder_name ∈ dictKeys stF.folder_tree :=
      fun r hr => buildLoop_true_registered df false df initState stF hres r hr (hcand r hr)
    have hsubk : ∀ a ∈ dictKeys stF.folder_tree, a = "root" ∨ a ∈ dfNames df := by
      have hadd : ∀ r ∈ df, candidate false r = true → ∀ st : BuildState,
          (∀ a ∈ dictKeys st.folder_tree, a = "root" ∨ a ∈ dfNames df) →
          (∀ a ∈ dictKeys (addFolderToTree r st).folder_tree,
            a = "root" ∨ a ∈ dfNames df) := by
        intro r hr _ st hP a ha
        rcases addFolder_keys_sub r st a ha with h' | h'
        · exact hP a h'
        · exact Or.inr (h' ▸ List.mem_map.mpr ⟨r, hr, rfl⟩)
      have := buildLoop_pres df (fun t => ∀ a ∈ dictKeys t, a = "root" ∨ a ∈ dfNames df)
        false hadd df (fun x hx => hx) initState
        (by
          intro a ha
          simp [initState, dictKeys] at ha
          exact Or.inl ha)
      rwa [hres] at this
    have hndk : (dictKeys stF.folder_tree).Nodup := by
      have hadd : ∀ r ∈ df, candidate false r = true → ∀ st : BuildState,
          (dictKeys st.folder_tree).Nodup →
          (dictKeys (addFolderToTree r st).folder_tree).Nodup := by
        intro r _ _ st hP
        rcases addFolder_tree_cases r st with h' | ⟨pf, _, h'⟩
        · rw [h']; exact hP
        · rw [h']; exact dictKeys_nodup_insert _ _ _ hP
      have := buildLoop_pres df (fun t => (dictKeys t).Nodup) false hadd df (fun x hx => hx)
        initState (by simp [initState, dictKeys])
      rwa [hres] at this
    have hrootnot : "root" ∉ dfNames df := root_not_mem_names df depth hPD hdep
    have hsub12 : dictKeys stF.folder_tree ⊆ "root" :: dfNames df := by
      intro a ha
      rcases hsubk a ha with h' | h'
      · rw [h']; exact List.mem_cons_self _ _
      · exact List.mem_cons_of_mem _ h'
    have hsub21 : ("root" :: dfNames df) ⊆ dictKeys stF.folder_tree := by
      intro a ha
      rcases List.mem_cons.mp ha with h' | h'
      · rw [h']; exact hroot_mem
      · rcases List.mem_map.mp h' with ⟨r, hr, hfn⟩
        rw [← hfn]
        exact hreg r hr
    have hnd2 : ("root" :: dfNames df).Nodup := List.nodup_cons.mpr ⟨hrootnot, hnd⟩
    have hle1 := (List.Nodup.subperm hndk hsub12).length_le
    have hle2 := (List.Nodup.subperm hnd2 hsub21).length_le
    have hkeylen : (dictKeys stF.folder_tree).length = ("root" :: dfNames df).length := by
      omega
    have htreelen : stF.folder_tree.length = (dictKeys stF.folder_tree).length := by
      simp [dictKeys]
    rw [n_folders, htreelen, hkeylen, List.length_cons]
    have : (dfNames df).length = df.length := List.length_map _ _
    omega

theorem c1_witness :
    ((dfNames [⟨"data", "root", none, true⟩]).Nodup ∧
      (∀ r ∈ [(⟨"data", "root", none, true⟩ : TRow)],
        r.parent = "root" ∨ r.parent ∈ dfNames [⟨"data", "root", none, true⟩])) ∧
    (create_project_tree [⟨"data", "root", none, true⟩] false).1 = true ∧
    n_folders (create_project_tree [⟨"data", "root", none, true⟩] false).2 = 2 :=
  ⟨⟨by decide, by decide⟩,
    c1_acyclic_build_true_and_count [⟨"data", "root", none, true⟩]
      (fun n => if n = "root" then 0 else 1)
      (by decide) (by decide) (by decide) (by decide)⟩

/-- A parent that is missing from the registry but has a row, and is already
in `explored`, makes the resolution fail with the circular-reference print. -/
theorem check_self_explored (df : List TRow) (minimal : Bool) (parent : String)
    (explored : List String) (st : BuildState)
    (hd : dictGet? st.folder_tree parent = none)
    (hmem : parent ∈ dfNames df)
    (hexp : parent ∈ explored) :
    check_parent_branch_exists df minimal parent explored st =
      (false, addMsg st (circularMsg parent)) := by
  rw [check_parent_branch_exists, hd]
  simp only
  rw [dif_neg (not_not_intro hmem), dif_pos hexp]

/-- C10: a record whose `parent` equals its own `folder_name`, reached while
its name is not yet registered, fails resolution with the circular-reference
report -- because `create_project_tree` seeds `explored` with the candidate's
own `folder_name` -- and the loop (hence `create_project_tree`, when the
record comes first) returns `False`. -/
theorem c10_self_parent_fails (df : List TRow) (minimal : Bool) :
    (∀ (r : TRow) (rest : List TRow) (st : BuildState),
      r.parent = r.folder_name →
      candidate minimal r = true →
      dictGet? st.folder_tree r.folder_name = none →
      r.folder_name ∈ dfNames df →
      buildLoop df minimal (r :: rest) st =
        (false, addMsg st (circularMsg r.folder_name)) ∧
      circularMsg r.folder_name ∈ (addMsg st (circularMsg r.folder_name)).msgs) ∧
    (∀ (r : TRow) (rest : List TRow),
      df = r :: rest →
      r.parent = r.folder_name →
      candidate minimal r = true →
      r.folder_name ≠ "root" →
      (create_project_tree df minimal).1 = false ∧
      circularMsg r.folder_name ∈ (create_project_tree df minimal).2.msgs) := by
  constructor
  · intro r rest st hself hcand hd hmem
    have hck : check_parent_branch_exists df minimal r.parent [r.folder_name] st =
        (false, addMsg st (circularMsg r.folder_name)) := by
      rw [hself]
      exact check_self_explored df minimal r.folder_name [r.folder_name] st hd hmem
        (List.mem_singleton_self _)
    constructor
    · rw [buildLoop, if_pos hcand, hck]
    · simp [addMsg]
  · intro r rest hdf hself hcand hroot
    subst hdf
    have hd : dictGet? initState.folder_tree r.folder_name = none := by
      rw [dictGet?_eq_none_iff]
      intro hmem
      simp [initState, dictKeys] at hmem
      exact hroot hmem
    have hmem : r.folder_name ∈ dfNames (r :: rest) := by
      rw [dfNames]
      exact List.mem_map.mpr ⟨r, List.mem_cons_self r rest, rfl⟩
    have hck : check_parent_branch_exists (r :: rest) minimal r.parent [r.folder_name]
        initState = (false, addMsg initState (circularMsg r.folder_name)) := by
      rw [hself]
      exact check_self_explored (r :: rest) minimal r.folder_name [r.folder_name] initState
        hd hmem (List.mem_singleton_self _)
    have hloop : buildLoop (r :: rest) minimal (r :: rest) initState =
        (false, addMsg initState (circularMsg r.folder_name)) := by
      rw [buildLoop, if_pos hcand, hck]
    constructor
    · rw [create_project_tree, hloop]
    · rw [create_project_tree, hloop]
      simp [addMsg]

theorem c10_witness :
    (create_project_tree [⟨"loop", "loop", none, true⟩] true).1 = false ∧
    circularMsg "loop" ∈ (create_project_tree [⟨"loop", "loop", none, true⟩] true).2.msgs :=
  (c10_self_parent_fails [⟨"loop", "loop", none, true⟩] true).2
    ⟨"loop", "loop", none, true⟩ [] rfl rfl (by decide) (by decide)

/-- C4: evaluation at the failing input.  For the single candidate row named
`bad<name` (reserved character `<`), `Folder.__init__` prints its message and
returns early, but the object still exists: `create_project_tree` registers
the nameless node under `bad<name` and returns `True` -- against the claim
that the node is not registered and the build fails.  Only the filesystem
part of the claim holds (`creations` stays empty). -/
theorem c4_invalid_name_registered_and_true :
    (create_project_tree [⟨"bad<name", "root", none, true⟩] false).1 = true ∧
    dictGet? (create_project_tree [⟨"bad<name", "root", none, true⟩] false).2.folder_tree
      "bad<name" = some (Folder.child none rootFolder none) ∧
    (create_project_tree [⟨"bad<name", "root", none, true⟩] false).2.creations = [] ∧
    (create_project_tree [⟨"bad<name", "root", none, true⟩] false).2.msgs =
      [exceptHandlerMessage "ReservedCharError"] := by
  rw [create_eval [⟨"bad<name", "root", none, true⟩] false
    (enoughFuel [⟨"bad<name", "root", none, true⟩])
    ((createFuel [⟨"bad<name", "root", none, true⟩] false
      (enoughFuel [⟨"bad<name", "root", none, true⟩])).getD (true, initState)) rfl]
  exact ⟨rfl, rfl, rfl, rfl⟩

/-- C8: evaluation at the failing input.  With a reserved character in the
name, no `create_folder` call happens (no directory, no README), but the
printed report is the generic `except`-clause message: because `err.args` (a
one-element tuple) is compared against a plain string, the branches that would
print the specific rule together with the offending character/name set are
unreachable. -/
theorem c8_invalid_name_reporting :
    (Folder.init "bad<name" (some rootFolder) (some "text")).creations = [] ∧
    (Folder.init "bad<name" (some rootFolder) (some "text")).messages =
      ["Other unexpected error occurred: ReservedCharError"] ∧
    (Folder.init "bad<name" (some rootFolder) (some "text")).folder =
      Folder.child none rootFolder (some "text") ∧
    (Folder.init "bad:name" none none).messages =
      ["Other unexpected error occurred: ReservedCharError"] ∧
    (Folder.init "dataCOM1" (some rootFolder) none).messages =
      ["Other unexpected error occurred: ReservedNameError"] ∧
    (Folder.init "dataCOM1" (some rootFolder) none).creations = [] :=
  ⟨rfl, rfl, rfl, rfl, rfl, rfl⟩

/-- C5 counterexample: with the child row listed before its parent, resolving
the child registers the parent; when the loop later reaches the parent's own
row it materializes it AGAIN, assigning a fresh node over the existing key
(`addsToExisting = 1`) and re-running directory/README creation (three
`create_folder` events for two records).  This refutes "materializes ... only
if that key was not already registered". -/
theorem c5_counterexample :
    (create_project_tree [⟨"raw", "data", some "r", true⟩, ⟨"data", "root", some "d", true⟩]
      false).1 = true ∧
    (create_project_tree [⟨"raw", "data", some "r", true⟩, ⟨"data", "root", some "d", true⟩]
      false).2.addsToExisting = 1 ∧
    (create_project_tree [⟨"raw", "data", some "r", true⟩, ⟨"data", "root", some "d", true⟩]
      false).2.creations.length = 3 := by
  rw [create_eval [⟨"raw", "data", some "r", true⟩, ⟨"data", "root", some "d", true⟩] false
    (enoughFuel [⟨"raw", "data", some "r", true⟩, ⟨"data", "root", some "d", true⟩])
    ((createFuel [⟨"raw", "data", some "r", true⟩, ⟨"data", "root", some "d", true⟩] false
      (enoughFuel [⟨"raw", "data", some "r", true⟩, ⟨"data", "root", some "d", true⟩])).getD
        (true, initState)) rfl]
  exact ⟨rfl, rfl, rfl⟩

/-- C5 amended: the registry's key set does grow monotonically -- no operation
ever removes a key -- for `_add_folder_to_tree`, `_check_parent_branch_exists`
and the `create_project_tree` loop alike (but an already-registered candidate
is re-materialized over its key, as the counterexample shows). -/
theorem c5_amended_keys_monotone :
    (∀ (r : TRow) (st : BuildState) (k : String),
      k ∈ dictKeys st.folder_tree → k ∈ dictKeys (addFolderToTree r st).folder_tree) ∧
    (∀ (df : List TRow) (minimal : Bool) (parent : String) (explored : List String)
      (st : BuildState) (k : String),
      k ∈ dictKeys st.folder_tree →
      k ∈ dictKeys (check_parent_branch_exists df minimal parent explored st).2.folder_tree) ∧
    (∀ (df : List TRow) (minimal : Bool) (rest : List TRow) (st : BuildState) (k : String),
      k ∈ dictKeys st.folder_tree →
      k ∈ dictKeys (buildLoop df minimal rest st).2.folder_tree) :=
  ⟨fun r st k hk => addFolder_keys_mono r st k hk,
    fun df minimal parent explored st k hk => check_keys_mono df minimal parent explored st k hk,
    fun df minimal rest st k hk => buildLoop_keys_mono df minimal rest st k hk⟩

theorem c5_witness :
    "root" ∈ dictKeys (buildLoop [] false [] initState).2.folder_tree :=
  c5_amended_keys_monotone.2.2 [] false [] initState "root" (by decide)

theorem addFolder_none_tree (r : TRow) (st : BuildState)
    (hd : dictGet? st.folder_tree r.parent = none) :
    (addFolderToTree r st).folder_tree = st.folder_tree := by
  simp only [addFolderToTree]
  rw [hd]

/-- C2 counterexample: the record set below CONTAINS rows `a -> b` and
`b -> a` (a direct mutual cycle, neither name pre-registered), yet because a
second row also named `a` (with parent `root`) precedes them, `names.index`
resolves `a` to that row and `create_project_tree(minimal=False)` returns
`True` without ever printing a circular-reference message. -/
theorem c2_counterexample :
    ((⟨"a", "b", none, true⟩ : TRow) ∈
      [(⟨"a", "root", none, true⟩ : TRow), ⟨"a", "b", none, true⟩, ⟨"b", "a", none, true⟩]) ∧
    ((⟨"b", "a", none, true⟩ : TRow) ∈
      [(⟨"a", "root", none, true⟩ : TRow), ⟨"a", "b", none, true⟩, ⟨"b", "a", none, true⟩]) ∧
    (create_project_tree [⟨"a", "root", none, true⟩, ⟨"a", "b", none, true⟩,
      ⟨"b", "a", none, true⟩] false).1 = true ∧
    (create_project_tree [⟨"a", "root", none, true⟩, ⟨"a", "b", none, true⟩,
      ⟨"b", "a", none, true⟩] false).2.msgs = [] := by
  refine ⟨by decide, by decide, ?_⟩
  rw [create_eval [⟨"a", "root", none, true⟩, ⟨"a", "b", none, true⟩, ⟨"b", "a", none, true⟩]
    false (enoughFuel [⟨"a", "root", none, true⟩, ⟨"a", "b", none, true⟩, ⟨"b", "a", none, true⟩])
    ((createFuel [⟨"a", "root", none, true⟩, ⟨"a", "b", none, true⟩, ⟨"b", "a", none, true⟩]
      false (enoughFuel [⟨"a", "root", none, true⟩, ⟨"a", "b", none, true⟩,
        ⟨"b", "a", none, true⟩])).getD (true, initState)) rfl]
  exact ⟨rfl, rfl⟩

/-- C2 amended: when the folder names are pairwise distinct, a record set
containing rows `A -> B` and `B -> A` (neither name registered on the fresh
builder, i.e. neither is `root`) makes `create_project_tree(minimal=False)`
return `False`; and when the resolution actually reaches the cycle -- e.g.
when the two cycle rows are the whole template -- the circular-reference
message is printed. -/
theorem c2_amended_cycle_fails (df : List TRow) (A B : String) (rA rB : TRow)
    (hnd : (dfNames df).Nodup) (hrA : rA ∈ df) (hrB : rB ∈ df)
    (hfnA : rA.folder_name = A) (hpA : rA.parent = B)
    (hfnB : rB.folder_name = B) (hpB : rB.parent = A)
    (hAB : A ≠ B) (hA0 : A ≠ "root") (hB0 : B ≠ "root") :
    (create_project_tree df false).1 = false ∧
    ((create_project_tree [⟨"alpha", "beta", none, true⟩, ⟨"beta", "alpha", none, true⟩]
        false).1 = false ∧
      circularMsg "alpha" ∈ (create_project_tree [⟨"alpha", "beta", none, true⟩,
        ⟨"beta", "alpha", none, true⟩] false).2.msgs) := by
  constructor
  · -- the invariant: neither A nor B can ever enter the registry
    have hadd : ∀ r ∈ df, candidate false r = true → ∀ st : BuildState,
        (A ∉ dictKeys st.folder_tree ∧ B ∉ dictKeys st.folder_tree) →
        (A ∉ dictKeys (addFolderToTree r st).folder_tree ∧
          B ∉ dictKeys (addFolderToTree r st).folder_tree) := by
      intro r hr _ st hP
      by_cases hfr : r.folder_name = A
      · have hreq : r = rA := row_name_inj df hnd r rA hr hrA (by rw [hfr, hfnA])
        have hd : dictGet? st.folder_tree r.parent = none := by
          rw [dictGet?_eq_none_iff, hreq, hpA]
          exact hP.2
        rw [addFolder_none_tree r st hd]
        exact hP
      · by_cases hfrB : r.folder_name = B
        · have hreq : r = rB := row_name_inj df hnd r rB hr hrB (by rw [hfrB, hfnB])
          have hd : dictGet? st.folder_tree r.parent = none := by
            rw [dictGet?_eq_none_iff, hreq, hpB]
            exact hP.1
          rw [addFolder_none_tree r st hd]
          exact hP
        · constructor
          · intro ha
            rcases addFolder_keys_sub r st A ha with h' | h'
            · exact hP.1 h'
            · exact hfr h'.symm
          · intro hb
            rcases addFolder_keys_sub r st B hb with h' | h'
            · exact hP.2 h'
            · exact hfrB h'.symm
    have hloop : ∀ (rest : List TRow), rest ⊆ df → rA ∈ rest → ∀ (st : BuildState),
        (A ∉ dictKeys st.folder_tree ∧ B ∉ dictKeys st.folder_tree) →
        (buildLoop df false rest st).1 = false := by
      intro rest
      induction rest with
      | nil => intro _ hmem; cases hmem
      | cons r rest' ih =>
        intro hsub hmem st hP
        have hsub' : rest' ⊆ df := fun x hx => hsub (List.mem_cons_of_mem r hx)
        rw [buildLoop, if_pos (by simp [candidate])]
        cases hck : check_parent_branch_exists df false r.parent [r.folder_name] st with
        | mk b st' =>
          have hP' : A ∉ dictKeys st'.folder_tree ∧ B ∉ dictKeys st'.folder_tree := by
            have := check_pres df
              (fun t => A ∉ dictKeys t ∧ B ∉ dictKeys t) false hadd
              r.parent [r.folder_name] st hP
            rwa [hck] at this
          by_cases hreq : r = rA
          · have hb : b = false := by
              by_contra hb
              rw [Bool.not_eq_false] at hb
              subst hb
              have hmemB := check_true_mem df false r.parent [r.folder_name] st st' hck
              rw [hreq, hpA] at hmemB
              exact hP'.2 hmemB
            subst hb
            rfl
          · have hmem' : rA ∈ rest' := by
              rcases List.mem_cons.mp hmem with h' | h'
              · exact absurd h'.symm hreq
              · exact h'
            cases b with
            | false => rfl
            | true =>
              simp only
              exact ih hsub' hmem' (addFolderToTree r st')
                (hadd r (hsub (List.mem_cons_self r rest')) (by simp [candidate]) st' hP')
    rw [create_project_tree]
    apply hloop df (fun x hx => hx) hrA initState
    constructor
    · intro hcontra
      simp [initState, dictKeys] at hcontra
      exact hA0 hcontra
    · intro hcontra
      simp [initState, dictKeys] at hcontra
      exact hB0 hcontra
  · rw [create_eval [⟨"alpha", "beta", none, true⟩, ⟨"beta", "alpha", none, true⟩] false
      (enoughFuel [⟨"alpha", "beta", none, true⟩, ⟨"beta", "alpha", none, true⟩])
      ((createFuel [⟨"alpha", "beta", none, true⟩, ⟨"beta", "alpha", none, true⟩] false
        (enoughFuel [⟨"alpha", "beta", none, true⟩, ⟨"beta", "alpha", none, true⟩])).getD
          (true, initState)) rfl]
    exact ⟨rfl, by decide⟩

theorem c2_witness :
    ((dfNames [(⟨"alpha", "beta", none, true⟩ : TRow), ⟨"beta", "alpha", none, true⟩]).Nodup ∧
      ("alpha" : String) ≠ "root") ∧
    (create_project_tree [⟨"alpha", "beta", none, true⟩, ⟨"beta", "alpha", none, true⟩]
      false).1 = false :=
  ⟨⟨by decide, by decide⟩,
    (c2_amended_cycle_fails
      [⟨"alpha", "beta", none, true⟩, ⟨"beta", "alpha", none, true⟩] "alpha" "beta"
      ⟨"alpha", "beta", none, true⟩ ⟨"beta", "alpha", none, true⟩
      (by decide) (by decide) (by decide) (by decide) (by decide) (by decide) (by decide)
      (by decide) (by decide) (by decide)).1⟩

/-- A parent missing from the registry whose (first) template row is excluded
from the minimal set fails resolution with the minimal-template print. -/
theorem check_minimal_excluded (df : List TRow) (parent : String) (explored : List String)
    (st : BuildState)
    (hd : dictGet? st.folder_tree parent = none)
    (hmem : parent ∈ dfNames df)
    (hexp : parent ∉ explored)
    (hcand : candidate true (rowFor df parent) = false) :
    check_parent_branch_exists df true parent explored st =
      (false, addMsg st (minimalMsg parent)) := by
  rw [check_parent_branch_exists, hd]
  simp only
  rw [dif_neg (not_not_intro hmem), dif_neg hexp, if_neg (by simp [hcand])]

/-- C3 amended: with pairwise-distinct folder names, a minimal build on a
fresh builder in which some minimal candidate's parent row has
`minimal = False` (and is not the root) returns `False`; the
"minimal template" message is printed when the resolution reaches that
candidate -- e.g. when the excluded parent and its child are the whole
template. -/
theorem c3_amended_minimal_parent_fails (df : List TRow) (P : String) (rC rP : TRow)
    (hnd : (dfNames df).Nodup) (hrC : rC ∈ df) (hrP : rP ∈ df)
    (hpC : rC.parent = P) (hminC : rC.minimal = true)
    (hfnP : rP.folder_name = P) (hminP : rP.minimal = false)
    (hP0 : P ≠ "root") :
    (create_project_tree df true).1 = false ∧
    ((create_project_tree [⟨"par", "root", none, false⟩, ⟨"chi", "par", none, true⟩]
        true).1 = false ∧
      minimalMsg "par" ∈ (create_project_tree [⟨"par", "root", none, false⟩,
        ⟨"chi", "par", none, true⟩] true).2.msgs) := by
  constructor
  · have hadd : ∀ r ∈ df, candidate true r = true → ∀ st : BuildState,
        P ∉ dictKeys st.folder_tree → P ∉ dictKeys (addFolderToTree r st).folder_tree := by
      intro r hr hcr st hP hcontra
      rcases addFolder_keys_sub r st P hcontra with h' | h'
      · exact hP h'
      · have hreq : r = rP := row_name_inj df hnd r rP hr hrP (by rw [← h']; exact hfnP.symm)
        rw [hreq] at hcr
        simp [candidate, hminP] at hcr
    have hCP : rC.folder_name ≠ P := by
      intro he
      have hreq : rC = rP := row_name_inj df hnd rC rP hrC hrP (by rw [he, hfnP])
      rw [hreq, hminP] at hminC
      exact Bool.false_ne_true hminC
    have hloop : ∀ (rest : List TRow), rest ⊆ df → rC ∈ rest → ∀ (st : BuildState),
        P ∉ dictKeys st.folder_tree → (buildLoop df true rest st).1 = false := by
      intro rest
      induction rest with
      | nil => intro _ hmem; cases hmem
      | cons r rest' ih =>
        intro hsub hmem st hP
        have hsub' : rest' ⊆ df := fun x hx => hsub (List.mem_cons_of_mem r hx)
        rw [buildLoop]
        by_cases hcr : candidate true r = true
        · rw [if_pos hcr]
          by_cases hreq : r = rC
          · have hck : check_parent_branch_exists df true r.parent [r.folder_name] st =
                (false, addMsg st (minimalMsg P)) := by
              rw [hreq, hpC]
              apply check_minimal_excluded df P [rC.folder_name] st
              · rw [dictGet?_eq_none_iff]
                exact hP
              · exact List.mem_map.mpr ⟨rP, hrP, hfnP⟩
              · intro hin
                rw [List.mem_singleton] at hin
                exact hCP hin.symm
              · rw [show rowFor df P = rP from by
                  rw [← hfnP]
                  exact rowFor_eq_of_nodup df hnd rP hrP]
                simp [candidate, hminP]
            rw [hck]
          · cases hck : check_parent_branch_exists df true r.parent [r.folder_name] st with
            | mk b st' =>
              have hP' : P ∉ dictKeys st'.folder_tree := by
                have := check_pres df (fun t => P ∉ dictKeys t) true hadd r.parent
                  [r.folder_name] st hP
                rwa [hck] at this
              cases b with
              | false => rfl
              | true =>
                simp only
                have hmem' : rC ∈ rest' := by
                  rcases List.mem_cons.mp hmem with h' | h'
                  · exact absurd h'.symm hreq
                  · exact h'
                exact ih hsub' hmem' _
                  (hadd r (hsub (List.mem_cons_self r rest')) hcr st' hP')
        · rw [if_neg hcr]
          have hmem' : rC ∈ rest' := by
            rcases List.mem_cons.mp hmem with h' | h'
            · exact absurd (by rw [← h']; simp [candidate, hminC]) hcr
            · exact h'
          exact ih hsub' hmem' st hP
    rw [create_project_tree]
    apply hloop df (fun x hx => hx) hrC initState
    intro hcontra
    simp [initState, dictKeys] at hcontra
    exact hP0 hcontra
  · rw [create_eval [⟨"par", "root", none, false⟩, ⟨"chi", "par", none, true⟩] true
      (enoughFuel [⟨"par", "root", none, false⟩, ⟨"chi", "par", none, true⟩])
      ((createFuel [⟨"par", "root", none, false⟩, ⟨"chi", "par", none, true⟩] true
        (enoughFuel [⟨"par", "root", none, false⟩, ⟨"chi", "par", none, true⟩])).getD
          (true, initState)) rfl]
    exact ⟨rfl, by decide⟩

/-- C3 counterexample: the record set below has candidate `chi` (minimal)
whose parent name `par` is borne by a row with `minimal = False` (and `par`
is not the root), yet `create_project_tree(minimal=True)` returns `True`:
a duplicate `par` row with `minimal = True` comes first, and `names.index`
resolves the parent to it. -/
theorem c3_counterexample :
    ((⟨"chi", "par", none, true⟩ : TRow) ∈
      [(⟨"par", "root", none, true⟩ : TRow), ⟨"chi", "par", none, true⟩,
        ⟨"par", "root", none, false⟩]) ∧
    ((⟨"par", "root", none, false⟩ : TRow) ∈
      [(⟨"par", "root", none, true⟩ : TRow), ⟨"chi", "par", none, true⟩,
        ⟨"par", "root", none, false⟩]) ∧
    (create_project_tree [⟨"par", "root", none, true⟩, ⟨"chi", "par", none, true⟩,
      ⟨"par", "root", none, false⟩] true).1 = true := by
  refine ⟨by decide, by decide, ?_⟩
  rw [create_eval [⟨"par", "root", none, true⟩, ⟨"chi", "par", none, true⟩,
      ⟨"par", "root", none, false⟩] true
    (enoughFuel [⟨"par", "root", none, true⟩, ⟨"chi", "par", none, true⟩,
      ⟨"par", "root", none, false⟩])
    ((createFuel [⟨"par", "root", none, true⟩, ⟨"chi", "par", none, true⟩,
      ⟨"par", "root", none, false⟩] true
      (enoughFuel [⟨"par", "root", none, true⟩, ⟨"chi", "par", none, true⟩,
        ⟨"par", "root", none, false⟩])).getD (true, initState)) rfl]
  rfl

theorem c3_witness :
    ((dfNames [(⟨"par", "root", none, false⟩ : TRow), ⟨"chi", "par", none, true⟩]).Nodup ∧
      ("par" : String) ≠ "root") ∧
    (create_project_tree [⟨"par", "root", none, false⟩, ⟨"chi", "par", none, true⟩]
      true).1 = false :=
  ⟨⟨by decide, by decide⟩,
    (c3_amended_minimal_parent_fails
      [⟨"par", "root", none, false⟩, ⟨"chi", "par", none, true⟩] "par"
      ⟨"chi", "par", none, true⟩ ⟨"par", "root", none, false⟩
      (by decide) (by decide) (by decide) (by decide) (by decide) (by decide) (by decide)
      (by decide)).1⟩

/-! `folder_path` lemmas. -/

theorem nameList_ne_nil (f : Folder) : f.nameList ≠ [] := by
  cases f with
  | root nm rd => simp [Folder.nameList]
  | child nm p rd => simp [Folder.nameList]

theorem joinPath_append_singleton : ∀ (xs : List String) (y : String), xs ≠ [] →
    joinPath (xs ++ [y]) = joinPath xs ++ "/" ++ y := by
  intro xs
  induction xs with
  | nil => intro y h; exact absurd rfl h
  | cons x xs' ih =>
    intro y _
    cases xs' with
    | nil => rfl
    | cons z xs'' =>
      have hne : z :: xs'' ≠ [] := by simp
      have h2 : (z :: xs'') ++ [y] = z :: (xs'' ++ [y]) := rfl
      have hstep : joinPath ((x :: z :: xs'') ++ [y]) =
          x ++ "/" ++ joinPath ((z :: xs'') ++ [y]) := rfl
      have hstep2 : joinPath (x :: z :: xs'') = x ++ "/" ++ joinPath (z :: xs'') := rfl
      rw [hstep, ih y hne, hstep2]
      simp [String.append_assoc]

theorem folder_path_child (nm : String) (p : Folder) (pp : String) (rd : Option String)
    (hc : hasReservedChar nm = false) (hn : hasReservedName nm = false)
    (hp : p.folder_path = some pp) :
    ((Folder.init nm (some p) rd).folder).folder_path = some (pp ++ "/" ++ nm) := by
  have hfold : (Folder.init nm (some p) rd).folder = Folder.child (some nm) p rd := by
    rw [Folder.init, if_neg (by simp [hc]), if_neg (by simp [hn])]
    rfl
  rw [hfold]
  have hall : (p.nameList.all fun o => o.isSome) = true := by
    by_contra hco
    rw [Folder.folder_path, if_neg hco] at hp
    exact Option.noConfusion hp
  rw [Folder.folder_path, if_pos hall] at hp
  have hpp := Option.some_inj.mp hp
  have hnl : (Folder.child (some nm) p rd).nameList = some nm :: p.nameList := rfl
  rw [Folder.folder_path, hnl]
  rw [if_pos (by rw [List.all_cons]; simp [hall])]
  rw [List.reverse_cons, List.map_append]
  simp only [List.map_cons, List.map_nil, Option.getD_some]
  rw [joinPath_append_singleton _ _
    (by
      simp only [Ne, List.map_eq_nil, List.reverse_eq_nil_iff]
      exact nameList_ne_nil p)]
  rw [hpp]

theorem folder_path_root (nm : String) (rd : Option String)
    (hc : hasReservedChar nm = false) (hn : hasReservedName nm = false) :
    ((Folder.init nm none rd).folder).folder_path = some "." := by
  rw [Folder.init, if_neg (by simp [hc]), if_neg (by simp [hn])]
  rfl

/-- C7: a materialized node's `folder_path` is the `/`-joined chain of names
from root to the node: for a validly named child it is the parent's path
followed by `/` and its own name, the parentless root's name is forced to the
marker `.` whatever valid name was supplied, and on the spec's example
(`data` under `root`, `raw` under `data`, minimal build) the registry has the
three keys with `raw` at path `./data/raw`. -/
theorem c7_folder_path_join (nm : String) (p : Folder) (pp : String) (rd rd' : Option String)
    (hc : hasReservedChar nm = false) (hn : hasReservedName nm = false)
    (hp : p.folder_path = some pp) :
    ((Folder.init nm (some p) rd).folder).folder_path = some (pp ++ "/" ++ nm) ∧
    ((Folder.init nm none rd').folder).folder_path = some "." ∧
    ((create_project_tree [⟨"data", "root", none, true⟩, ⟨"raw", "data", none, true⟩]
        true).1 = true ∧
      n_folders (create_project_tree [⟨"data", "root", none, true⟩,
        ⟨"raw", "data", none, true⟩] true).2 = 3 ∧
      dictKeys (create_project_tree [⟨"data", "root", none, true⟩,
        ⟨"raw", "data", none, true⟩] true).2.folder_tree = ["root", "data", "raw"] ∧
      (dictGet? (create_project_tree [⟨"data", "root", none, true⟩,
        ⟨"raw", "data", none, true⟩] true).2.folder_tree "raw").map Folder.folder_path =
        some (some "./data/raw")) := by
  refine ⟨folder_path_child nm p pp rd hc hn hp, folder_path_root nm rd' hc hn, ?_⟩
  rw [create_eval [⟨"data", "root", none, true⟩, ⟨"raw", "data", none, true⟩] true
    (enoughFuel [⟨"data", "root", none, true⟩, ⟨"raw", "data", none, true⟩])
    ((createFuel [⟨"data", "root", none, true⟩, ⟨"raw", "data", none, true⟩] true
      (enoughFuel [⟨"data", "root", none, true⟩, ⟨"raw", "data", none, true⟩])).getD
        (true, initState)) rfl]
  exact ⟨rfl, rfl, rfl, rfl⟩

theorem c7_witness :
    (hasReservedChar "data" = false ∧ rootFolder.folder_path = some ".") ∧
    ((Folder.init "data" (some rootFolder) none).folder).folder_path = some ("." ++ "/" ++ "data") :=
  ⟨⟨by decide, by decide⟩,
    (c7_folder_path_join "data" rootFolder "." none none (by decide) (by decide)
      (by decide)).1⟩

/-!
Canonical node values.  Under unique template names each registered name has a
canonical `Folder` value determined by the template alone (computed here with
a fuel bound on the ancestor chain); the build only ever stores canonical
values, which makes the final registry independent of the record order.
-/

def canonFolder (df : List TRow) : Nat → String → Option Folder
  | 0, _ => none
  | fuel + 1, n =>
    if n = "root" then some rootFolder
    else
      match df.find? (fun r => r.folder_name == n) with
      | none => none
      | some r =>
        match canonFolder df fuel r.parent with
        | none => none
        | some pf => some (Folder.init n (some pf) r.readme_text).folder

theorem find?_eq_of_unique (l : List TRow) (p : TRow → Bool) (x : TRow)
    (hx : x ∈ l) (hpx : p x = true) (huniq : ∀ y ∈ l, p y = true → y = x) :
    l.find? p = some x := by
  induction l with
  | nil => cases hx
  | cons a tl ih =>
    by_cases hpa : p a = true
    · have hax := huniq a (List.mem_cons_self a tl) hpa
      subst hax
      rw [List.find?_cons_of_pos _ hpa]
    · rw [List.find?_cons_of_neg _ (by simp [hpa])]
      have hxtl : x ∈ tl := by
        rcases List.mem_cons.mp hx with h' | h'
        · rw [h'] at hpx
          exact absurd hpx hpa
        · exact h'
      exact ih hxtl (fun y hy hpy => huniq y (List.mem_cons_of_mem a hy) hpy)

/-- With unique names, `find?` by a row's name returns that row. -/
theorem find?_name_eq (df : List TRow) (hnd : (dfNames df).Nodup) (r : TRow) (hr : r ∈ df) :
    df.find? (fun x => x.folder_name == r.folder_name) = some r := by
  apply find?_eq_of_unique df _ r hr (by simp)
  intro y hy hpy
  exact row_name_inj df hnd y r hy hr (by simpa using hpy)

theorem canon_mono (df : List TRow) : ∀ (fuel : Nat) (n : String) (f : Folder),
    canonFolder df fuel n = some f → canonFolder df (fuel + 1) n = some f := by
  intro fuel
  induction fuel with
  | zero => intro n f h; simp [canonFolder] at h
  | succ u ih =>
    intro n f h
    rw [canonFolder] at h
    rw [canonFolder]
    by_cases hn : n = "root"
    · rw [if_pos hn] at h
      rw [if_pos hn]
      exact h
    · rw [if_neg hn] at h
      rw [if_neg hn]
      cases hf : df.find? (fun r => r.folder_name == n) with
      | none => rw [hf] at h; simp at h
      | some r =>
        rw [hf] at h
        simp only at h ⊢
        cases hc : canonFolder df u r.parent with
        | none => rw [hc] at h; simp at h
        | some pf =>
          rw [hc] at h
          rw [ih r.parent pf hc]
          exact h

theorem canon_le (df : List TRow) (fuel fuel' : Nat) (n : String) (f : Folder)
    (hle : fuel ≤ fuel') (h : canonFolder df fuel n = some f) :
    canonFolder df fuel' n = some f := by
  rcases Nat.exists_eq_add_of_le hle with ⟨k, rfl⟩
  clear hle
  induction k with
  | zero => exact h
  | succ k ih => exact canon_mono df (fuel + k) n f ih

theorem canon_perm (df df' : List TRow) (hperm : df.Perm df')
    (hnd : (dfNames df).Nodup) : ∀ (fuel : Nat) (n : String),
    canonFolder df fuel n = canonFolder df' fuel n := by
  intro fuel
  induction fuel with
  | zero => intro n; rfl
  | succ u ih =>
    intro n
    rw [canonFolder, canonFolder]
    by_cases hn : n = "root"
    · rw [if_pos hn, if_pos hn]
    · rw [if_neg hn, if_neg hn]
      cases hf : df.find? (fun r => r.folder_name == n) with
      | none =>
        have hnone : df'.find? (fun r => r.folder_name == n) = none := by
          rw [List.find?_eq_none] at hf ⊢
          intro y hy
          exact hf y (hperm.mem_iff.mpr hy)
        rw [hnone]
      | some r =>
        have hrdf : r ∈ df := List.mem_of_find?_eq_some hf
        have hpr := List.find?_some hf
        have hsome : df'.find? (fun x => x.folder_name == n) = some r := by
          apply find?_eq_of_unique df' _ r (hperm.mem_iff.mp hrdf) hpr
          intro y hy hpy
          exact row_name_inj df hnd y r (hperm.mem_iff.mpr hy) hrdf
            (by
              have h1 : y.folder_name = n := by simpa using hpy
              have h2 : r.folder_name = n := by simpa using hpr
              rw [h1, h2])
        rw [hsome]
        simp only
        rw [ih r.parent]

/-- The canonical-value invariant for the registry. -/
def CanonInv (df : List TRow) (t : List (String × Folder)) : Prop :=
  ∀ k f, dictGet? t k = some f → ∃ fuel, canonFolder df fuel k = some f

theorem canonInv_init (df : List TRow) : CanonInv df initState.folder_tree := by
  intro k f h
  have h' : (if ("root" : String) = k then some rootFolder else none) = some f := h
  by_cases hk : ("root" : String) = k
  · rw [if_pos hk] at h'
    have hf : f = rootFolder := (Option.some_inj.mp h').symm
    refine ⟨1, ?_⟩
    rw [canonFolder, if_pos hk.symm, hf]
  · rw [if_neg hk] at h'
    exact absurd h' (by simp)

theorem canonInv_add (df : List TRow) (hnd : (dfNames df).Nodup)
    (hroot : "root" ∉ dfNames df) (r' : TRow) (hr' : r' ∈ df) (st : BuildState)
    (hQ : CanonInv df st.folder_tree) : CanonInv df (addFolderToTree r' st).folder_tree := by
  rcases addFolder_tree_cases r' st with htree | ⟨pf, hd, htree⟩
  · rw [htree]
    exact hQ
  · rw [htree]
    rcases hQ r'.parent pf hd with ⟨fuel0, hc0⟩
    intro k f h
    by_cases hk : k = r'.folder_name
    · subst hk
      rw [dictGet?_insert_self] at h
      have hf : f = (Folder.init r'.folder_name (some pf) r'.readme_text).folder :=
        (Option.some_inj.mp h).symm
      refine ⟨fuel0 + 1, ?_⟩
      have hkroot : ¬(r'.folder_name = "root") := by
        intro hcontra
        exact hroot (hcontra ▸ List.mem_map.mpr ⟨r', hr', rfl⟩)
      rw [canonFolder, if_neg hkroot, find?_name_eq df hnd r' hr']
      simp only
      rw [hc0, hf]
    · rw [dictGet?_insert_ne _ _ _ _ hk] at h
      exact hQ k f h

/-!
Registration order.  The registry lists keys in insertion order; a key is only
ever inserted after its row's parent is present, so the key position gives a
depth function witnessing acyclicity for every template that builds
successfully.
-/

def OrdInv (df : List TRow) (t : List (String × Folder)) : Prop :=
  (dictKeys t).Nodup ∧
  ∀ r ∈ df, r.folder_name ∈ dictKeys t →
    r.parent ∈ dictKeys t ∧
    (dictKeys t).indexOf r.parent < (dictKeys t).indexOf r.folder_name

theorem ordInv_init (df : List TRow) (hroot : "root" ∉ dfNames df) :
    OrdInv df initState.folder_tree := by
  constructor
  · simp [initState, dictKeys]
  · intro r hr hmem
    exfalso
    apply hroot
    have : r.folder_name = "root" := by
      simpa [initState, dictKeys] using hmem
    exact this ▸ List.mem_map.mpr ⟨r, hr, rfl⟩

theorem ordInv_add (df : List TRow) (hnd : (dfNames df).Nodup) (r' : TRow) (hr' : r' ∈ df)
    (st : BuildState) (hQ : OrdInv df st.folder_tree) :
    OrdInv df (addFolderToTree r' st).folder_tree := by
  rcases addFolder_tree_cases r' st with htree | ⟨pf, hd, htree⟩
  · rw [htree]
    exact hQ
  · rw [htree]
    have hparmem : r'.parent ∈ dictKeys st.folder_tree := dictGet?_some_mem _ _ _ hd
    by_cases hmem : r'.folder_name ∈ dictKeys st.folder_tree
    · rw [OrdInv, dictKeys_insert_mem _ _ _ hmem]
      exact hQ
    · rw [OrdInv, dictKeys_insert_not_mem _ _ _ hmem]
      constructor
      · rw [List.nodup_append]
        refine ⟨hQ.1, List.nodup_singleton _, ?_⟩
        intro a hmem' hak
        rw [List.mem_singleton] at hak
        exact hmem (hak ▸ hmem')
      · intro r hr hrmem
        rcases List.mem_append.mp hrmem with hin | hin
        · have hold := hQ.2 r hr hin
          refine ⟨List.mem_append_left _ hold.1, ?_⟩
          rw [List.indexOf_append_of_mem hold.1, List.indexOf_append_of_mem hin]
          exact hold.2
        · rw [List.mem_singleton] at hin
          have hreq : r = r' := row_name_inj df hnd r r' hr hr' (by rw [hin])
          refine ⟨List.mem_append_left _ (hreq ▸ hparmem), ?_⟩
          rw [hreq]
          rw [List.indexOf_append_of_mem hparmem, List.indexOf_append_of_not_mem hmem]
          have h1 : (dictKeys st.folder_tree).indexOf r'.parent <
              (dictKeys st.folder_tree).length :=
            List.indexOf_lt_length.mpr hparmem
          have h2 : List.indexOf r'.folder_name [r'.folder_name] = 0 :=
            List.indexOf_cons_self _ _
          omega

/-- C6 amended: for templates with pairwise-distinct folder names, none equal
to the root key, if one ordering builds successfully then every permutation
of the records (children before parents or parents first) also builds
successfully and produces the same final registry: the same lookup result --
hence the same keys, parent structure and paths -- for every name. -/
theorem c6_amended_order_independence (df df' : List TRow)
    (hnd : (dfNames df).Nodup) (hroot : "root" ∉ dfNames df)
    (hsucc : (create_project_tree df false).1 = true)
    (hperm : df.Perm df') :
    (create_project_tree df' false).1 = true ∧
    ∀ k, dictGet? (create_project_tree df' false).2.folder_tree k =
      dictGet? (create_project_tree df false).2.folder_tree k := by
  have hpermN : (dfNames df).Perm (dfNames df') := hperm.map _
  have hnd' : (dfNames df').Nodup := hpermN.nodup_iff.mp hnd
  have hroot' : "root" ∉ dfNames df' := fun h => hroot (hpermN.mem_iff.mpr h)
  cases hres : buildLoop df false df initState with
  | mk b stF =>
    have hb : b = true := by
      rw [create_project_tree, hres] at hsucc
      exact hsucc
    subst hb
    have hc2 : (create_project_tree df false).2 = stF := by rw [create_project_tree, hres]
    have hOrd : OrdInv df stF.folder_tree := by
      have := buildLoop_pres df (OrdInv df) false
        (fun r hr _ st hQ => ordInv_add df hnd r hr st hQ) df (fun x hx => hx)
        initState (ordInv_init df hroot)
      rwa [hres] at this
    have hreg : ∀ r ∈ df, r.folder_name ∈ dictKeys stF.folder_tree :=
      fun r hr => buildLoop_true_registered df false df initState stF hres r hr
        (by simp [candidate])
    have hdep : ∀ r ∈ df, (dictKeys stF.folder_tree).indexOf r.parent <
        (dictKeys stF.folder_tree).indexOf r.folder_name :=
      fun r hr => (hOrd.2 r hr (hreg r hr)).2
    have hparmem : ∀ r ∈ df, r.parent ∈ dictKeys stF.folder_tree :=
      fun r hr => (hOrd.2 r hr (hreg r hr)).1
    have hsubk : ∀ a ∈ dictKeys stF.folder_tree, a = "root" ∨ a ∈ dfNames df := by
      have hadd : ∀ r ∈ df, candidate false r = true → ∀ st : BuildState,
          (∀ a ∈ dictKeys st.folder_tree, a = "root" ∨ a ∈ dfNames df) →
          (∀ a ∈ dictKeys (addFolderToTree r st).folder_tree,
            a = "root" ∨ a ∈ dfNames df) := by
        intro r hr _ st hP a ha
        rcases addFolder_keys_sub r st a ha with h' | h'
        · exact hP a h'
        · exact Or.inr (h' ▸ List.mem_map.mpr ⟨r, hr, rfl⟩)
      have := buildLoop_pres df (fun t => ∀ a ∈ dictKeys t, a = "root" ∨ a ∈ dfNames df)
        false hadd df (fun x hx => hx) initState
        (by
          intro a ha
          simp [initState, dictKeys] at ha
          exact Or.inl ha)
      rwa [hres] at this
    have hPD : ∀ r ∈ df, r.parent = "root" ∨ r.parent ∈ dfNames df :=
      fun r hr => hsubk r.parent (hparmem r hr)
    have hPD' : ∀ r ∈ df', r.parent = "root" ∨ r.parent ∈ dfNames df' := by
      intro r hr
      rcases hPD r (hperm.mem_iff.mpr hr) with h | h
      · exact Or.inl h
      · exact Or.inr (hpermN.mem_iff.mp h)
    have hdep' : ∀ r ∈ df', (dictKeys stF.folder_tree).indexOf r.parent <
        (dictKeys stF.folder_tree).indexOf r.folder_name :=
      fun r hr => hdep r (hperm.mem_iff.mpr hr)
    have hsucc' : (create_project_tree df' false).1 = true := by
      rw [create_project_tree]
      exact buildLoop_success df' false (fun n => (dictKeys stF.folder_tree).indexOf n)
        hPD' hdep' (fun r _ => by simp [candidate]) df' (fun x hx => hx) initState
        root_mem_init
    refine ⟨hsucc', ?_⟩
    cases hres' : buildLoop df' false df' initState with
    | mk b' stF' =>
      have hb' : b' = true := by
        have hs2 := hsucc'
        rw [create_project_tree, hres'] at hs2
        exact hs2
      subst hb'
      have hc2' : (create_project_tree df' false).2 = stF' := by
        rw [create_project_tree, hres']
      have hCanon : CanonInv df stF.folder_tree := by
        have := buildLoop_pres df (CanonInv df) false
          (fun r hr _ st hQ => canonInv_add df hnd hroot r hr st hQ) df (fun x hx => hx)
          initState (canonInv_init df)
        rwa [hres] at this
      have hCanon' : CanonInv df' stF'.folder_tree := by
        have := buildLoop_pres df' (CanonInv df') false
          (fun r hr _ st hQ => canonInv_add df' hnd' hroot' r hr st hQ) df' (fun x hx => hx)
          initState (canonInv_init df')
        rwa [hres'] at this
      have hsubk' : ∀ a ∈ dictKeys stF'.folder_tree, a = "root" ∨ a ∈ dfNames df' := by
        have hadd : ∀ r ∈ df', candidate false r = true → ∀ st : BuildState,
            (∀ a ∈ dictKeys st.folder_tree, a = "root" ∨ a ∈ dfNames df') →
            (∀ a ∈ dictKeys (addFolderToTree r st).folder_tree,
              a = "root" ∨ a ∈ dfNames df') := by
          intro r hr _ st hP a ha
          rcases addFolder_keys_sub r st a ha with h' | h'
          · exact hP a h'
          · exact Or.inr (h' ▸ List.mem_map.mpr ⟨r, hr, rfl⟩)
        have := buildLoop_pres df' (fun t => ∀ a ∈ dictKeys t, a = "root" ∨ a ∈ dfNames df')
          false hadd df' (fun x hx => hx) initState
          (by
            intro a ha
            simp [initState, dictKeys] at ha
            exact Or.inl ha)
        rwa [hres'] at this
      have hreg' : ∀ r ∈ df', r.folder_name ∈ dictKeys stF'.folder_tree :=
        fun r hr => buildLoop_true_registered df' false df' initState stF' hres' r hr
          (by simp [candidate])
      have hrootF : "root" ∈ dictKeys stF.folder_tree := by
        have := buildLoop_keys_mono df false df initState "root" root_mem_init
        rwa [hres] at this
      have hrootF' : "root" ∈ dictKeys stF'.folder_tree := by
        have := buildLoop_keys_mono df' false df' initState "root" root_mem_init
        rwa [hres'] at this
      have hkeys_iff : ∀ a, a ∈ dictKeys stF'.folder_tree ↔ a ∈ dictKeys stF.folder_tree := by
        intro a
        constructor
        · intro ha
          rcases hsubk' a ha with h' | h'
          · rw [h']
            exact hrootF
          · rcases List.mem_map.mp (hpermN.mem_iff.mpr h') with ⟨r, hr, hfn⟩
            exact hfn ▸ hreg r hr
        · intro ha
          rcases hsubk a ha with h' | h'
          · rw [h']
            exact hrootF'
          · rcases List.mem_map.mp (hpermN.mem_iff.mp h') with ⟨r, hr, hfn⟩
            exact hfn ▸ hreg' r hr
      intro k
      rw [hc2, hc2']
      by_cases hk : k ∈ dictKeys stF.folder_tree
      · have hk' : k ∈ dictKeys stF'.folder_tree := (hkeys_iff k).mpr hk
        cases hsomeF : dictGet? stF.folder_tree k with
        | none =>
          rw [dictGet?_eq_none_iff] at hsomeF
          exact absurd hk hsomeF
        | some f =>
          cases hsomeF' : dictGet? stF'.folder_tree k with
          | none =>
            rw [dictGet?_eq_none_iff] at hsomeF'
            exact absurd hk' hsomeF'
          | some f' =>
            rcases hCanon k f hsomeF with ⟨u, hu⟩
            rcases hCanon' k f' hsomeF' with ⟨u', hu'⟩
            have hu'2 : canonFolder df u' k = some f' := by
              rw [canon_perm df df' hperm hnd u' k]
              exact hu'
            have h1 : canonFolder df (max u u') k = some f :=
              canon_le df u (max u u') k f (Nat.le_max_left u u') hu
            have h2 : canonFolder df (max u u') k = some f' :=
              canon_le df u' (max u u') k f' (Nat.le_max_right u u') hu'2
            rw [h1] at h2
            rw [Option.some_inj.mp h2]
      · have hk' : k ∉ dictKeys stF'.folder_tree := fun h => hk ((hkeys_iff k).mp h)
        rw [(dictGet?_eq_none_iff _ _).mpr hk, (dictGet?_eq_none_iff _ _).mpr hk']

/-- C6 counterexample: with a duplicate folder name the final tree is NOT
order independent.  The two templates below are permutations of each other;
listing the child row `a -> b` after the rows named `a` and `b`
(parents first) ends with `a` under `b` (path `./b/a`), while listing it
first (children before parents) ends with `a` under the root (path `./a`).
Both orderings build successfully, so the claim fails as stated. -/
theorem c6_counterexample :
    ([(⟨"a", "b", none, true⟩ : TRow), ⟨"a", "root", none, true⟩,
        ⟨"b", "root", none, true⟩].Perm
      [⟨"a", "root", none, true⟩, ⟨"b", "root", none, true⟩, ⟨"a", "b", none, true⟩]) ∧
    (create_project_tree [⟨"a", "root", none, true⟩, ⟨"b", "root", none, true⟩,
      ⟨"a", "b", none, true⟩] false).1 = true ∧
    (create_project_tree [⟨"a", "b", none, true⟩, ⟨"a", "root", none, true⟩,
      ⟨"b", "root", none, true⟩] false).1 = true ∧
    (dictGet? (create_project_tree [⟨"a", "root", none, true⟩, ⟨"b", "root", none, true⟩,
      ⟨"a", "b", none, true⟩] false).2.folder_tree "a").map Folder.folder_path =
      some (some "./b/a") ∧
    (dictGet? (create_project_tree [⟨"a", "b", none, true⟩, ⟨"a", "root", none, true⟩,
      ⟨"b", "root", none, true⟩] false).2.folder_tree "a").map Folder.folder_path =
      some (some "./a") ∧
    dictGet? (create_project_tree [⟨"a", "b", none, true⟩, ⟨"a", "root", none, true⟩,
      ⟨"b", "root", none, true⟩] false).2.folder_tree "a" ≠
    dictGet? (create_project_tree [⟨"a", "root", none, true⟩, ⟨"b", "root", none, true⟩,
      ⟨"a", "b", none, true⟩] false).2.folder_tree "a" := by
  refine ⟨by decide, ?_⟩
  rw [create_eval [⟨"a", "root", none, true⟩, ⟨"b", "root", none, true⟩,
      ⟨"a", "b", none, true⟩] false
    (enoughFuel [⟨"a", "root", none, true⟩, ⟨"b", "root", none, true⟩,
      ⟨"a", "b", none, true⟩])
    ((createFuel [⟨"a", "root", none, true⟩, ⟨"b", "root", none, true⟩,
      ⟨"a", "b", none, true⟩] false
      (enoughFuel [⟨"a", "root", none, true⟩, ⟨"b", "root", none, true⟩,
        ⟨"a", "b", none, true⟩])).getD (true, initState)) rfl]
  rw [create_eval [⟨"a", "b", none, true⟩, ⟨"a", "root", none, true⟩,
      ⟨"b", "root", none, true⟩] false
    (enoughFuel [⟨"a", "b", none, true⟩, ⟨"a", "root", none, true⟩,
      ⟨"b", "root", none, true⟩])
    ((createFuel [⟨"a", "b", none, true⟩, ⟨"a", "root", none, true⟩,
      ⟨"b", "root", none, true⟩] false
      (enoughFuel [⟨"a", "b", none, true⟩, ⟨"a", "root", none, true⟩,
        ⟨"b", "root", none, true⟩])).getD (true, initState)) rfl]
  exact ⟨rfl, rfl, rfl, rfl, by decide⟩

theorem c6_witness :
    ((dfNames [(⟨"data", "root", none, true⟩ : TRow), ⟨"raw", "data", none, true⟩]).Nodup ∧
      ("root" : String) ∉ dfNames [(⟨"data", "root", none, true⟩ : TRow),
        ⟨"raw", "data", none, true⟩] ∧
      (create_project_tree [⟨"data", "root", none, true⟩, ⟨"raw", "data", none, true⟩]
        false).1 = true) ∧
    ((create_project_tree [⟨"raw", "data", none, true⟩, ⟨"data", "root", none, true⟩]
        false).1 = true ∧
      dictGet? (create_project_tree [⟨"raw", "data", none, true⟩,
        ⟨"data", "root", none, true⟩] false).2.folder_tree "raw" =
      dictGet? (create_project_tree [⟨"data", "root", none, true⟩,
        ⟨"raw", "data", none, true⟩] false).2.folder_tree "raw") := by
  have hsucc : (create_project_tree [⟨"data", "root", none, true⟩,
      ⟨"raw", "data", none, true⟩] false).1 = true := by
    rw [create_eval [⟨"data", "root", none, true⟩, ⟨"raw", "data", none, true⟩] false
      (enoughFuel [⟨"data", "root", none, true⟩, ⟨"raw", "data", none, true⟩])
      ((createFuel [⟨"data", "root", none, true⟩, ⟨"raw", "data", none, true⟩] false
        (enoughFuel [⟨"data", "root", none, true⟩, ⟨"raw", "data", none, true⟩])).getD
          (true, initState)) rfl]
    rfl
  have hmain := c6_amended_order_independence
    [⟨"data", "root", none, true⟩, ⟨"raw", "data", none, true⟩]
    [⟨"raw", "data", none, true⟩, ⟨"data", "root", none, true⟩]
    (by decide) (by decide) hsucc (by decide)
  exact ⟨⟨by decide, by decide, hsucc⟩, ⟨hmain.1, hmain.2 "raw"⟩⟩
